import Mathlib

/-!
Verification development for the domainname-wizard iterative domain-discovery
engine.  The definitions below are a shallow embedding of the TypeScript
sources: JavaScript numbers are modelled as rationals, machine 32-bit
operations are modelled on naturals with explicit reduction modulo 2^32,
JavaScript Map objects are modelled as association lists with insertion-order
semantics, and thrown errors are modelled with Except / explicit outcome
types.  Theorems about the claims of the specification follow the
definitions.
-/

namespace DomainWizard

/-! ## Shared numeric helpers (src/lib/search/scoring.ts, runner) -/

/-- Computable binary minimum on ℚ, kernel-reducible. -/
def jsMin (a b : ℚ) : ℚ :=
  if a ≤ b then a else b

/-- Computable binary maximum on ℚ, kernel-reducible. -/
def jsMax (a b : ℚ) : ℚ :=
  if a ≤ b then b else a

/-- Computable absolute value on ℚ, kernel-reducible. -/
def jsAbs (q : ℚ) : ℚ :=
  if q < 0 then -q else q

/-- Embedding of the clamp helper: Math.min(max, Math.max(min, value)). -/
def clamp (value lo hi : ℚ) : ℚ :=
  jsMin hi (jsMax lo value)

/-- Computable floor of a rational, kernel-reducible (Euclidean division by
the positive denominator is floor division). -/
def ratFloor (q : ℚ) : ℤ :=
  q.num / q.den

/-- Embedding of JavaScript Math.round: round half toward positive infinity. -/
def jsRound (q : ℚ) : ℤ :=
  ratFloor (q + 1/2)

/-- Embedding of round2: Number(value.toFixed(2)), idealised over ℚ with the
ECMAScript tie rule (pick the larger candidate). -/
def round2 (q : ℚ) : ℚ :=
  (jsRound (q * 100) : ℚ) / 100

/-- Embedding of the toFixed(4) rounding used for TuningStep.reward. -/
def round4 (q : ℚ) : ℚ :=
  (jsRound (q * 10000) : ℚ) / 10000

/-! ## String helpers shared by the scorer and optimizer -/

/-- Embedding of String.prototype.toLowerCase restricted to per-character
lowering. -/
def jsToLower (s : String) : String :=
  String.mk (s.toList.map Char.toLower)

/-- Characters dropped from both ends by String.prototype.trim. -/
def trimChars (cs : List Char) : List Char :=
  ((cs.dropWhile Char.isWhitespace).reverse.dropWhile Char.isWhitespace).reverse

/-- Embedding of String.prototype.trim. -/
def jsTrim (s : String) : String :=
  String.mk (trimChars s.toList)

/-- Character class [a-z0-9] used by tokenizeText after lowercasing. -/
def isLowerAlnum (c : Char) : Bool :=
  (('a' ≤ c && c ≤ 'z') || ('0' ≤ c && c ≤ '9'))

/-- Token delimiters of the /[\s-]+/ split in tokenizeText. -/
def isTokenDelim (c : Char) : Bool :=
  c.isWhitespace || c = '-'

/-- Embedding of tokenizeText: lowercase, replace characters outside
[a-z0-9\s-] by spaces, split on whitespace/hyphen runs, keep tokens of
length at least 2.  (Replaced characters and delimiters are both consumed by
the split, so replacing runs by a single space versus per character is
observationally identical.) -/
def tokenizeText (input : String) : List String :=
  let lowered := input.toList.map Char.toLower
  let masked := lowered.map (fun c =>
    if isLowerAlnum c || c.isWhitespace || c = '-' then c else ' ')
  ((masked.splitOnP isTokenDelim).filter (fun t => 2 ≤ t.length)).map String.mk

/-- Embedding of tokenizeForLearning: tokenizeText then truncate each token
to 24 characters and drop falsy (empty) tokens. -/
def tokenizeForLearning (input : String) : List String :=
  ((tokenizeText input).map (fun t => String.mk (t.toList.take 24))).filter
    (fun t => t ≠ "")

/-- Membership test for a character list as a prefix of another. -/
def charsStartsWith : List Char → List Char → Bool
  | [], _ => true
  | _ :: _, [] => false
  | n :: ns, h :: hs => n = h && charsStartsWith ns hs

/-- Substring containment on character lists, the model of
String.prototype.includes. -/
def charsInfixOf : List Char → List Char → Bool
  | needle, [] => needle.isEmpty
  | needle, h :: hs => charsStartsWith needle (h :: hs) || charsInfixOf needle hs

/-- Embedding of label.includes(token). -/
def jsIncludes (hay needle : String) : Bool :=
  charsInfixOf needle.toList hay.toList

/-- Join a list of strings with a separator, the model of Array.join. -/
def joinWith (sep : String) : List String → String
  | [] => ""
  | [x] => x
  | x :: y :: xs => x ++ sep ++ joinWith sep (y :: xs)

/-! ## Scorer data model (src/lib/types.ts) -/

/-- Raw availability outcome for one candidate (RawDomainResult enriched with
price and budget flag = DomainResult).  Prices are rationals in major
currency units. -/
structure DomainResult where
  domain : String
  sourceName : String
  isNamelixPremium : Bool
  available : Bool
  definitive : Bool
  priceMicros : Option ℚ
  currency : Option String
  period : Option ℕ
  reason : Option String
  price : Option ℚ
  overBudget : Bool
deriving DecidableEq, Repr

/-- Categorical style values accepted by the generator. -/
inductive StyleValue where
  | default
  | brandable
  | twowords
  | threewords
  | compound
  | spelling
  | nonenglish
  | dictionary
deriving DecidableEq, Repr

instance : Inhabited StyleValue := ⟨StyleValue.default⟩

/-- Categorical randomness values. -/
inductive RandomnessValue where
  | low
  | medium
  | high
deriving DecidableEq, Repr

instance : Inhabited RandomnessValue := ⟨RandomnessValue.low⟩

/-- Categorical mutation-intensity values. -/
inductive MutationIntensityValue where
  | low
  | medium
  | high
deriving DecidableEq, Repr

instance : Inhabited MutationIntensityValue := ⟨MutationIntensityValue.low⟩

/-- Declared order of the style arms array. -/
def STYLE_VALUES : List StyleValue :=
  [.default, .brandable, .twowords, .threewords, .compound, .spelling,
   .nonenglish, .dictionary]

/-- Declared order of the randomness arms array. -/
def RANDOMNESS_VALUES : List RandomnessValue :=
  [.low, .medium, .high]

/-- Declared order of the mutation-intensity arms array. -/
def MUTATION_INTENSITY_VALUES : List MutationIntensityValue :=
  [.low, .medium, .high]

/-- Immutable search input (SearchRequest). -/
structure SearchRequest where
  keywords : String
  description : Option String
  style : StyleValue
  randomness : RandomnessValue
  blacklist : Option String
  maxLength : ℕ
  tld : String
  maxNames : ℕ
  yearlyBudget : ℚ
  loopCount : ℕ
deriving DecidableEq, Repr

/-- One weighted scoring component (names kept, presentational detail text
omitted). -/
structure WeightedComponent where
  component : String
  score : ℚ
  weight : ℚ
deriving DecidableEq, Repr

/-- A signed value-driver entry produced from a weighted component. -/
structure ValueDriver where
  component : String
  impact : ℚ
deriving DecidableEq, Repr

/-! ## Scorer functions (src/lib/search/scoring.ts) -/

/-- Vowel class of the scorer regexes [aeiouy]. -/
def isVowel (c : Char) : Bool :=
  c = 'a' || c = 'e' || c = 'i' || c = 'o' || c = 'u' || c = 'y'

/-- Number of maximal vowel runs in a character list, the model of
matching /[aeiouy]+/g and counting the groups. -/
def countVowelGroups (cs : List Char) : ℕ :=
  (cs.foldl
    (fun (acc : ℕ × Bool) c =>
      if isVowel c then (if acc.2 then acc else (acc.1 + 1, true))
      else (acc.1, false))
    (0, false)).1

/-- Embedding of estimateSyllables. -/
def estimateSyllables (label : String) : ℕ :=
  let parts := (label.toList.splitOnP (fun c => c = '-')).filter (fun p => p ≠ [])
  if parts = [] then 1
  else max 1 (parts.foldl (fun total p => total + max 1 (countVowelGroups p)) 0)

/-- Worst consonant streak used by pronounceability: every non-vowel
character extends the streak. -/
def worstConsonantStreak (cs : List Char) : ℕ :=
  (cs.foldl
    (fun (acc : ℕ × ℕ) c =>
      if isVowel c then (acc.1, 0)
      else (max acc.1 (acc.2 + 1), acc.2 + 1))
    (0, 0)).1

/-- Embedding of calculatePronounceability. -/
def calculatePronounceability (label : String) : ℚ :=
  if label = "" then 0
  else
    let plain := label.toList.filter (fun c => c ≠ '-')
    let vowels : ℕ := (plain.filter isVowel).length
    let vowelFrac : ℚ := (vowels : ℚ) / jsMax 1 (plain.length : ℚ)
    let ratioScore : ℚ := 100 - jsAbs (vowelFrac - 42/100) * 220
    let streakPenalty : ℚ := clamp (((worstConsonantStreak plain : ℚ) - 2) * 14) 0 60
    clamp (ratioScore - streakPenalty) 0 100

/-- Embedding of calculateLengthScore with ideal length 9. -/
def calculateLengthScore (labelLength : ℕ) : ℚ :=
  clamp (100 - jsAbs ((labelLength : ℚ) - 9) * 10) 0 100

/-- Embedding of calculateSyllableScore. -/
def calculateSyllableScore (syllables : ℕ) : ℚ :=
  if 2 ≤ syllables ∧ syllables ≤ 3 then 100
  else if syllables = 1 ∨ syllables = 4 then 78
  else if syllables = 5 then 55
  else 35

/-- Embedding of calculateKeywordRelevance. -/
def calculateKeywordRelevance (label : String) (keywordTokens : List String) : ℚ :=
  if label = "" ∨ keywordTokens = [] then 35
  else
    let matchCount : ℕ := (keywordTokens.filter (fun t => jsIncludes label t)).length
    clamp (30 + ((matchCount : ℚ) / (keywordTokens.length : ℚ)) * 70) 0 100

/-- Embedding of calculateDistinctiveness. -/
def calculateDistinctiveness (label : String) : ℚ :=
  let plain := label.toList.filter (fun c => c ≠ '-')
  if plain = [] then 0
  else clamp (((plain.dedup.length : ℚ) / (plain.length : ℚ)) * 120) 0 100

/-- Embedding of calculateAffordabilityScore: neutral 50 when the price is
unknown, otherwise linear in the price-to-budget ratio, clamped. -/
def calculateAffordabilityScore (price : Option ℚ) (yearlyBudget : ℚ) : ℚ :=
  match price with
  | none => 50
  | some p => clamp (112 - (p / jsMax 1 yearlyBudget) * 65) 0 100

/-- Stable descending insertion sort by a rational key: an element moves in
front of another only when its key is strictly larger, which models the
stability guarantee of Array.prototype.sort with the comparator
(a, b) => key(b) - key(a). -/
def insertDescBy (key : α → ℚ) (x : α) : List α → List α
  | [] => [x]
  | y :: ys => if key x > key y then x :: y :: ys else y :: insertDescBy key x ys

/-- Stable descending sort by a rational key. -/
def stableSortDescBy (key : α → ℚ) : List α → List α
  | [] => []
  | x :: xs => insertDescBy key x (stableSortDescBy key xs)

/-- Stable ascending sort by a rational key, modelling the comparator
(a, b) => key(a) - key(b). -/
def stableSortAscBy (key : α → ℚ) (l : List α) : List α :=
  stableSortDescBy (fun a => -(key a)) l

/-- Embedding of buildDrivers: signed impacts, positive ones sorted
descending (top 4) and negative ones sorted ascending (top 4). -/
def buildDrivers (components : List WeightedComponent) :
    List ValueDriver × List ValueDriver :=
  let impacts : List ValueDriver := components.map (fun c =>
    { component := c.component, impact := round2 ((c.score - 50) * c.weight) })
  let drivers :=
    (stableSortDescBy (fun e => e.impact)
      (impacts.filter (fun e => e.impact > 0))).take 4
  let detractors :=
    (stableSortAscBy (fun e => e.impact)
      (impacts.filter (fun e => e.impact < 0))).take 4
  (drivers, detractors)

/-- Per-TLD trust modifier table. -/
def TRUSTED_TLD_MODIFIERS (tld : String) : Option ℚ :=
  if tld = "com" then some 1
  else if tld = "io" then some (95/100)
  else if tld = "co" then some (93/100)
  else if tld = "ai" then some (94/100)
  else if tld = "net" then some (90/100)
  else if tld = "org" then some (90/100)
  else if tld = "app" then some (92/100)
  else none

/-- Lowercased dot-split parts of the result domain. -/
def domainParts (domain : String) : List String :=
  ((jsToLower domain).toList.splitOnP (fun c => c = '.')).map String.mk

/-- Label extraction of scoreDomainResult: first dot-separated part when the
domain has more than one part, otherwise the empty string. -/
def labelOf (domain : String) : String :=
  let parts := domainParts domain
  if parts.length > 1 then parts.headD "" else ""

/-- TLD extraction of scoreDomainResult: the joined remaining parts, falling
back to the lowercased input TLD. -/
def tldOf (domain : String) (inputTld : String) : String :=
  let parts := domainParts domain
  if parts.length > 1 then joinWith "." parts.tail else jsToLower inputTld

/-- Keyword tokens derived from the request keywords and description. -/
def requestKeywordTokens (input : SearchRequest) : List String :=
  tokenizeText (input.keywords ++ " " ++ input.description.getD "")

/-- The seven weighted marketability components of scoreDomainResult. -/
def marketComponents (label : String) (keywordTokens : List String) :
    List WeightedComponent :=
  [ { component := "lengthPreference",
      score := calculateLengthScore label.length, weight := 22/100 },
    { component := "syllableFit",
      score := calculateSyllableScore (estimateSyllables label), weight := 18/100 },
    { component := "pronounceability",
      score := calculatePronounceability label, weight := 20/100 },
    { component := "keywordRelevance",
      score := calculateKeywordRelevance label keywordTokens, weight := 16/100 },
    { component := "distinctiveness",
      score := calculateDistinctiveness label, weight := 10/100 },
    { component := "hyphenPenalty",
      score := if label.toList.contains '-' then 28 else 100, weight := 8/100 },
    { component := "digitPenalty",
      score := if label.toList.any Char.isDigit then 24 else 100, weight := 6/100 } ]

/-- Weighted sum of a component list, the model of the reduce over
score * weight. -/
def weightedSum (components : List WeightedComponent) : ℚ :=
  components.foldl (fun total c => total + c.score * c.weight) 0

/-- Marketability score: weighted component sum scaled by the TLD trust
modifier, clamped and rounded. -/
def marketabilityScoreOf (domain : String) (input : SearchRequest) : ℚ :=
  let label := labelOf domain
  let tld := tldOf domain input.tld
  let tldModifier := (TRUSTED_TLD_MODIFIERS tld).getD (85/100)
  round2 (clamp (weightedSum (marketComponents label (requestKeywordTokens input)) * tldModifier) 0 100)

/-- The four weighted financial components of scoreDomainResult. -/
def financialComponents (result : DomainResult) (input : SearchRequest) :
    List WeightedComponent :=
  [ { component := "availability",
      score := if result.available then 100 else 0, weight := 35/100 },
    { component := "definitiveStatus",
      score := if result.definitive then 100 else 62, weight := 12/100 },
    { component := "affordability",
      score := calculateAffordabilityScore result.price input.yearlyBudget,
      weight := 38/100 },
    { component := "premiumPenalty",
      score := if result.isNamelixPremium then 35 else 100, weight := 15/100 } ]

/-- Financial value score: weighted sum clamped and rounded, then discounted
by 0.82 when over budget and by 0.45 when unavailable. -/
def financialValueScoreOf (result : DomainResult) (input : SearchRequest) : ℚ :=
  let base := round2 (clamp (weightedSum (financialComponents result input)) 0 100)
  let afterBudget := if result.overBudget then round2 (base * (82/100)) else base
  if result.available then afterBudget else round2 (afterBudget * (45/100))

/-- Overall score: the 0.62 financial / 0.38 marketability blend, clamped
and rounded. -/
def overallScoreOf (result : DomainResult) (input : SearchRequest) : ℚ :=
  round2 (clamp (financialValueScoreOf result input * (62/100)
    + marketabilityScoreOf result.domain input * (38/100)) 0 100)

/-- Metrics record returned by scoreDomainResult. -/
structure RankedMetrics where
  marketabilityScore : ℚ
  financialValueScore : ℚ
  overallScore : ℚ
  syllableCount : ℕ
  labelLength : ℕ
  valueDrivers : List ValueDriver
  valueDetractors : List ValueDriver
deriving DecidableEq, Repr

/-- Embedding of scoreDomainResult, split into the named score functions
above; the driver lists merge the per-family top entries exactly as the
source does. -/
def scoreDomainResult (result : DomainResult) (input : SearchRequest) :
    RankedMetrics :=
  let label := labelOf result.domain
  let keywordTokens := requestKeywordTokens input
  let market := buildDrivers (marketComponents label keywordTokens)
  let financial := buildDrivers (financialComponents result input)
  { marketabilityScore := marketabilityScoreOf result.domain input,
    financialValueScore := financialValueScoreOf result input,
    overallScore := overallScoreOf result input,
    syllableCount := estimateSyllables label,
    labelLength := label.length,
    valueDrivers :=
      (stableSortDescBy (fun e => e.impact) (market.1 ++ financial.1)).take 4,
    valueDetractors :=
      (stableSortAscBy (fun e => e.impact) (market.2 ++ financial.2)).take 4 }

/-- Embedding of scoreRewardFromRankedScores: mean of the top five scores
scaled to [0,1]. -/
def scoreRewardFromRankedScores (scores : List ℚ) : ℚ :=
  if scores = [] then 0
  else
    let sorted := stableSortDescBy id scores
    let topSlice := sorted.take (min 5 sorted.length)
    let avg := topSlice.foldl (fun sum s => sum + s) 0 / (topSlice.length : ℚ)
    round2 (clamp (avg / 100) 0 1)

/-! ## Batch chunking and the availability client (src/lib/godaddy/client.ts) -/

/-- Embedding of chunkDomains: successive slices of chunkSize elements.  For
chunkSize at least 1 this is exactly the source loop over slice(i, i +
chunkSize); the source does not terminate for chunkSize 0 and is only ever
called with the positive constant 100. -/
def chunkDomains (domains : List α) (chunkSize : ℕ) : List (List α) :=
  match domains with
  | [] => []
  | x :: xs =>
    (x :: xs.take (chunkSize - 1)) :: chunkDomains (xs.drop (chunkSize - 1)) chunkSize
termination_by domains.length
decreasing_by
  simp only [List.length_drop, List.length_cons]
  omega

/-- One provider row of a successful bulk response. -/
structure GoDaddyDomainAvailableResponse where
  domain : String
  available : Bool
  definitive : Bool
  price : Option ℚ
  currency : Option String
  period : Option ℕ
deriving DecidableEq, Repr

/-- One provider error row of a bulk response. -/
structure GoDaddyDomainError where
  code : String
  domain : String
  message : Option String
  status : Option ℕ
deriving DecidableEq, Repr

/-- Bulk response payload; absent arrays are modelled as empty lists, the
image of the ?? [] defaulting in the source. -/
structure GoDaddyBulkResponse where
  domains : List GoDaddyDomainAvailableResponse
  errors : List GoDaddyDomainError
deriving DecidableEq, Repr

/-- Availability record stored in the result map. -/
structure GoDaddyAvailability where
  domain : String
  available : Bool
  definitive : Bool
  priceMicros : Option ℚ
  currency : Option String
  period : Option ℕ
  reason : Option String
deriving DecidableEq, Repr

/-- JavaScript Map.set on an insertion-ordered association list: overwrite
in place when the key exists, append otherwise. -/
def mapSet (m : List (String × β)) (k : String) (v : β) : List (String × β) :=
  if m.any (fun e => e.1 = k) then
    m.map (fun e => if e.1 = k then (k, v) else e)
  else m ++ [(k, v)]

/-- JavaScript Map.has. -/
def mapHasKey (m : List (String × β)) (k : String) : Bool :=
  m.any (fun e => e.1 = k)

/-- JavaScript Map.get returning an Option. -/
def mapFind? (m : List (String × β)) (k : String) : Option β :=
  (m.find? (fun e => e.1 = k)).map (fun e => e.2)

/-- First-occurrence deduplication, the model of Array.from(new Set(...)). -/
def dedupKeepFirstAux (seen : List String) : List String → List String
  | [] => []
  | x :: xs =>
    if x ∈ seen then dedupKeepFirstAux seen xs
    else x :: dedupKeepFirstAux (x :: seen) xs

/-- First-occurrence deduplication entry point. -/
def dedupKeepFirst (l : List String) : List String :=
  dedupKeepFirstAux [] l

/-- Normalized input domains of checkAvailabilityBulk: trimmed, lowercased,
non-empty, deduplicated keeping first occurrences. -/
def normalizedDomains (domains : List String) : List String :=
  dedupKeepFirst ((domains.map (fun d => jsToLower (jsTrim d))).filter
    (fun d => d ≠ ""))

/-- Fixed availability chunk size. -/
def CHUNK_SIZE : ℕ := 100

/-- Result-map writes performed for one chunk payload: success rows first,
then error rows, each keyed by the lowercased provider-reported domain. -/
def applyChunkPayload (m : List (String × GoDaddyAvailability))
    (payload : GoDaddyBulkResponse) : List (String × GoDaddyAvailability) :=
  let m1 := payload.domains.foldl
    (fun m di =>
      mapSet m (jsToLower di.domain)
        { domain := jsToLower di.domain, available := di.available,
          definitive := di.definitive, priceMicros := di.price,
          currency := di.currency, period := di.period, reason := none })
    m
  payload.errors.foldl
    (fun m ei =>
      mapSet m (jsToLower ei.domain)
        { domain := jsToLower ei.domain, available := false,
          definitive := false, priceMicros := none, currency := none,
          period := none, reason := some (ei.message.getD ei.code) })
    m1

/-- Fallback record written for a queried domain that received no provider
response. -/
def missingAvailability (d : String) : GoDaddyAvailability :=
  { domain := d, available := false, definitive := false, priceMicros := none,
    currency := none, period := none,
    reason := some "No availability response returned for this domain." }

/-- The fill step of the final loop of checkAvailabilityBulk: write the
fallback record for a queried domain only when it is still absent. -/
def fillMissing (m : List (String × GoDaddyAvailability)) (d : String) :
    List (String × GoDaddyAvailability) :=
  if mapHasKey m d then m else mapSet m d (missingAvailability d)

/-- Embedding of checkAvailabilityBulk.  The provider behaviour is a
parameter from chunk to payload; chunk payloads are folded in order (the
concurrent chunk tasks of the source commute for the properties stated
here, which only concern key presence and the fallback fill).  The final
loop fills every queried domain that is still missing. -/
def checkAvailabilityBulk (domains : List String)
    (respond : List String → GoDaddyBulkResponse) :
    List (String × GoDaddyAvailability) :=
  let normalized := normalizedDomains domains
  let chunks := chunkDomains normalized CHUNK_SIZE
  let afterChunks := chunks.foldl (fun m chunk => applyChunkPayload m (respond chunk)) []
  normalized.foldl fillMissing afterChunks

/-- Lowercased keys a chunk payload writes into the result map. -/
def chunkKeys (payload : GoDaddyBulkResponse) : List String :=
  payload.domains.map (fun di => jsToLower di.domain)
    ++ payload.errors.map (fun ei => jsToLower ei.domain)

/-- All lowercased provider-reported keys over the chunks of a request, used
to state when a queried domain went unanswered. -/
def providerKeys (domains : List String)
    (respond : List String → GoDaddyBulkResponse) : List String :=
  ((chunkDomains (normalizedDomains domains) CHUNK_SIZE).map
    (fun chunk => chunkKeys (respond chunk))).flatten

/-! ## Aggregator (src/lib/search/runner.ts) -/

/-- A scored, ranked domain row (RankedDomainResult). -/
structure RankedDomainResult where
  domain : String
  sourceName : String
  isNamelixPremium : Bool
  available : Bool
  definitive : Bool
  priceMicros : Option ℚ
  currency : Option String
  period : Option ℕ
  reason : Option String
  price : Option ℚ
  overBudget : Bool
  marketabilityScore : ℚ
  financialValueScore : ℚ
  overallScore : ℚ
  syllableCount : ℕ
  labelLength : ℕ
  valueDrivers : List ValueDriver
  valueDetractors : List ValueDriver
  firstSeenLoop : ℕ
  lastSeenLoop : ℕ
  timesDiscovered : ℕ
deriving DecidableEq, Repr

/-- Price with the undefined-as-infinity defaulting of the merge comparison,
(price ?? Number.POSITIVE_INFINITY). -/
def jsPrice (p : Option ℚ) : WithTop ℚ :=
  match p with
  | none => ⊤
  | some q => (q : WithTop ℚ)

/-- Boolean inequality test on defaulted prices, kernel-friendly. -/
def priceNe (a b : Option ℚ) : Bool :=
  match a, b with
  | some x, some y => x ≠ y
  | some _, none => true
  | none, some _ => true
  | none, none => false

/-- Boolean less-than test on defaulted prices, kernel-friendly. -/
def priceLt (a b : Option ℚ) : Bool :=
  match a, b with
  | some x, some y => x < y
  | some _, none => true
  | none, _ => false

/-- Lexicographic string order used as the model of
localeCompare(...) < 0 on ASCII domain strings. -/
def domainBefore (a b : String) : Bool :=
  decide (a < b)

/-- Embedding of shouldReplaceByScore: higher overall score, then lower
defaulted price, then lexicographically earlier domain. -/
def shouldReplaceByScore (existing next : RankedDomainResult) : Bool :=
  if next.overallScore ≠ existing.overallScore then
    next.overallScore > existing.overallScore
  else if priceNe next.price existing.price then
    priceLt next.price existing.price
  else
    domainBefore next.domain existing.domain

/-- Embedding of mergeAggregateEntry: keep the winner's display fields but
preserve the original firstSeenLoop, stamp lastSeenLoop with the current
loop and increment timesDiscovered. -/
def mergeAggregateEntry (existing : Option RankedDomainResult)
    (candidate : RankedDomainResult) (loop : ℕ) : RankedDomainResult :=
  match existing with
  | none => candidate
  | some e =>
    let chosen := if shouldReplaceByScore e candidate then candidate else e
    { chosen with
        firstSeenLoop := e.firstSeenLoop,
        lastSeenLoop := loop,
        timesDiscovered := e.timesDiscovered + 1 }

/-- Label parsing used before aggregation (parseDomainLabel): text before
the first dot, or nothing when there is no dot or it is in first position. -/
def parseDomainLabel (domain : String) : Option String :=
  match domain.toList.findIdx? (fun c => c = '.') with
  | none => none
  | some 0 => none
  | some i => some (String.mk (domain.toList.take i))

/-- Embedding of mergeRowsIntoAggregate over the association-list map. -/
def mergeRowsIntoAggregate (aggregate : List (String × RankedDomainResult))
    (rows : List RankedDomainResult) (loop : ℕ) :
    List (String × RankedDomainResult) :=
  rows.foldl
    (fun aggregate row =>
      match parseDomainLabel row.domain with
      | none => aggregate
      | some _ =>
        let key := jsToLower row.domain
        mapSet aggregate key (mergeAggregateEntry (mapFind? aggregate key) row loop))
    aggregate

/-! ## Loop progress model (src/lib/search/runner.ts) -/

/-- Embedding of calculateLoopProgress: fraction clamped to [0,1], loop
completion normalised by the loop total and remapped into the [5,95] band.
The currentLoop - 1 natural subtraction coincides with the
Math.max(0, currentLoop - 1) of the source. -/
def calculateLoopProgress (totalLoops currentLoop : ℕ) (loopFraction : ℚ) : ℤ :=
  if totalLoops = 0 then 100
  else
    let completedLoops : ℕ := currentLoop - 1
    let fractionWithinLoop := clamp loopFraction 0 1
    let normalized := ((completedLoops : ℚ) + fractionWithinLoop) / (totalLoops : ℚ)
    jsRound (5 + normalized * 90)

/-- Considered-name safety cap per loop. -/
def LOOP_CONSIDERED_LIMIT : ℕ := 251

/-- Stalled-batch cap per loop. -/
def LOOP_MAX_STALLED_BATCHES : ℕ := 3

/-- Batch-attempt cap per loop. -/
def LOOP_MAX_BATCH_ATTEMPTS : ℕ := 12

/-- Observable outcome of one generation batch: how many fresh (not yet
seen this loop) candidates the scrape produced and how many of them
qualified (available and within budget), before the quota cutoff. -/
structure BatchOutcome where
  fresh : ℕ
  qualified : ℕ
deriving DecidableEq, Repr

/-- Progress values written by the job-store updates of one loop of
runSearchJob, given the batch outcomes the external collaborators produce.
State mirrors the loop-local mutable variables: collected quota k,
consideredCount, batchCount and stalledBatches.  Each iteration emits the
pre-scrape update, the pre-availability update when fresh candidates
exist, and the post-batch snapshot update, with exactly the fractions the
source passes to calculateLoopProgress. -/
def runLoopProgress (totalLoops loop maxNames : ℕ) :
    ℕ → ℕ → ℕ → ℕ → List BatchOutcome → List ℤ
  | _, _, _, _, [] => []
  | k, considered, batchCount, stalled, b :: rest =>
    if maxNames ≤ k then []
    else if LOOP_CONSIDERED_LIMIT ≤ considered then []
    else if LOOP_MAX_BATCH_ATTEMPTS ≤ batchCount then []
    else
      let fractionPreScrape : ℚ :=
        5/100 + (80/100) * ((k : ℚ) / jsMax 1 (maxNames : ℚ))
      let p1 := calculateLoopProgress totalLoops loop fractionPreScrape
      let considered2 := considered + b.fresh
      let batchCount2 := batchCount + 1
      let limitHit := LOOP_CONSIDERED_LIMIT ≤ considered2
      let pushes := if b.fresh = 0 then 0 else min b.qualified (maxNames - k)
      let k2 := k + pushes
      let stalled2 :=
        if b.fresh = 0 then stalled + 1
        else if pushes = 0 then stalled + 1 else 0
      let p2s : List ℤ :=
        if b.fresh = 0 then []
        else [calculateLoopProgress totalLoops loop (fractionPreScrape + 4/100)]
      let p3 := calculateLoopProgress totalLoops loop
        (12/100 + (82/100) * ((k2 : ℚ) / jsMax 1 (maxNames : ℚ)))
      let emitted := p1 :: p2s ++ [p3]
      if limitHit then emitted
      else if LOOP_MAX_STALLED_BATCHES ≤ stalled2 then emitted
      else emitted ++ runLoopProgress totalLoops loop maxNames k2 considered2 batchCount2 stalled2 rest

/-- Progress values written over a whole job run: the initial
markJobRunning(5), then for every loop its batch updates followed by the
end-of-loop update at fraction 1. -/
def jobInflightProgress (totalLoops maxNames : ℕ)
    (loops : List (List BatchOutcome)) : List ℤ :=
  5 :: ((List.range totalLoops).map
    (fun i =>
      runLoopProgress totalLoops (i + 1) maxNames 0 0 0 0 (loops.getD i [])
        ++ [calculateLoopProgress totalLoops (i + 1) 1])).flatten

/-- The full progress sequence of a successful run, ending with the
markJobComplete value 100. -/
def runSearchJobProgress (totalLoops maxNames : ℕ)
    (loops : List (List BatchOutcome)) : List ℤ :=
  jobInflightProgress totalLoops maxNames loops ++ [100]

/-! ## Job store and error mapping (src/lib/jobs/store.ts, runner) -/

/-- Job lifecycle states. -/
inductive JobStatus where
  | queued
  | running
  | done
  | failed
deriving DecidableEq, Repr

/-- Job phase annotations. -/
inductive JobPhase where
  | namelix
  | godaddy
  | looping
  | finalize
deriving DecidableEq, Repr

/-- Typed job error carrying a code and message. -/
structure JobError where
  code : String
  message : String
deriving DecidableEq, Repr

/-- The job document fields the lifecycle functions manipulate; results are
abstracted by a type parameter. -/
structure SearchJobState (Results : Type) where
  status : JobStatus
  phase : Option JobPhase
  progress : ℤ
  currentLoop : Option ℕ
  totalLoops : Option ℕ
  results : Option Results
  error : Option JobError

/-- Embedding of markJobFailed: terminal failed status, phase cleared, with
the typed error attached. -/
def markJobFailed {Results : Type} (e : JobError) (job : SearchJobState Results) :
    SearchJobState Results :=
  { job with status := .failed, phase := none, error := some e }

/-- Embedding of markJobComplete: terminal done status with full progress,
the final results and the error cleared. -/
def markJobComplete {Results : Type} (results : Results) (job : SearchJobState Results) :
    SearchJobState Results :=
  { job with
      status := .done
      phase := some JobPhase.finalize
      progress := 100
      results := some results
      error := none }

/-- The values the catch handler of runSearchJob can receive: each typed
error class of the collaborators, any other Error instance, or a thrown
non-Error value. -/
inductive JsThrown where
  | namelixScrape (message : String)
  | godaddyAuth (message : String)
  | godaddyRateLimit (message : String)
  | godaddyApi (message : String)
  | otherError (message : String)
  | nonError
deriving DecidableEq, Repr

/-- Embedding of mapErrorToJobError: the instanceof chain of the source. -/
def mapErrorToJobError : JsThrown → JobError
  | .namelixScrape message => { code := "NAMELIX_SCRAPE_FAILED", message := message }
  | .godaddyAuth message => { code := "GODADDY_AUTH_FAILED", message := message }
  | .godaddyRateLimit message => { code := "GODADDY_RATE_LIMIT", message := message }
  | .godaddyApi message => { code := "GODADDY_API_ERROR", message := message }
  | .otherError message => { code := "INTERNAL_ERROR", message := message }
  | .nonError =>
    { code := "INTERNAL_ERROR",
      message := "Unexpected unknown error occurred during search execution." }

/-- Outcome of the try/catch boundary of runSearchJob: the body either
completes with results or throws some JsThrown value; the catch converts a
throw into markJobFailed with the mapped typed error, so the function
itself always returns normally. -/
def runSearchJobOutcome {Results : Type} (job : SearchJobState Results)
    (body : Except JsThrown Results) : SearchJobState Results :=
  match body with
  | .ok results => markJobComplete results job
  | .error e => markJobFailed (mapErrorToJobError e) job

/-! ## Generation rate-limit queue (src/lib/rate-limit.ts) -/

/-- Fixed cooldown before each generation call, in milliseconds. -/
def NAMELIX_BASE_COOLDOWN_MS : ℕ := 20000

/-- Upper bound (exclusive) of the random jitter, in milliseconds. -/
def NAMELIX_MAX_JITTER_MS : ℕ := 5000

/-- One serialized run of the generation queue as the code implements it:
compute targetStart from the stored timestamp, cooldown and jitter, wait
until then if needed, record Date.now() immediately BEFORE running the
task, then run the task for its duration.  Returns (start time, finish
time, new stored timestamp). -/
def runNamelixQueued (lastRunAt now jitter duration : ℕ) : ℕ × ℕ × ℕ :=
  let targetStart := lastRunAt + NAMELIX_BASE_COOLDOWN_MS + jitter
  let startAt := max now targetStart
  (startAt, startAt + duration, startAt)

/-- Modelled from the spec: the variant the specification describes, which
records the COMPLETION time after the task finishes ("run the task; record
completion time").  Used only to compare against the source behaviour. -/
def runNamelixQueuedSpec (lastRunFinishedAt now jitter duration : ℕ) : ℕ × ℕ × ℕ :=
  let targetStart := lastRunFinishedAt + NAMELIX_BASE_COOLDOWN_MS + jitter
  let startAt := max now targetStart
  (startAt, startAt + duration, startAt + duration)

/-! ## Bandit optimizer (src/lib/search/optimizer.ts) -/

/-- Play count and cumulative reward of one bandit arm. -/
structure ArmStats where
  plays : ℕ
  reward : ℚ
deriving DecidableEq, Repr

/-- Fresh arm statistics. -/
def createArmStats : ArmStats :=
  { plays := 0, reward := 0 }

/-- Versioned optimizer model state; the three categorical bandit tables are
total functions on the closed arm enumerations and the token table is an
insertion-ordered association list, the model of a plain object keyed by
token. -/
structure OptimizerModelState where
  version : ℕ
  runCount : ℕ
  updatedAt : ℕ
  styleBandit : StyleValue → ArmStats
  randomnessBandit : RandomnessValue → ArmStats
  mutationBandit : MutationIntensityValue → ArmStats
  tokenStats : List (String × ArmStats)

/-- Default model state; updatedAt is modelled as 0 since no claim observes
the Date.now() stamp. -/
def createDefaultOptimizerModelState : OptimizerModelState :=
  { version := 1
    runCount := 0
    updatedAt := 0
    styleBandit := fun _ => createArmStats
    randomnessBandit := fun _ => createArmStats
    mutationBandit := fun _ => createArmStats
    tokenStats := [] }

/-- Average reward of an arm with the 0.55 optimistic prior for unplayed
arms. -/
def averageReward (stats : ArmStats) : ℚ :=
  if stats.plays = 0 then 11/20 else stats.reward / (stats.plays : ℚ)

/-- Embedding of sanitizeOptimizerModelState on already-typed state: the
per-arm checks of the source accept every typed ArmStats value unchanged
(plays is a natural, reward a rational), so only the token-key filtering
and the version stamp remain observable. -/
def sanitizeOptimizerModelState (source : OptimizerModelState) :
    OptimizerModelState :=
  { source with
      version := 1
      tokenStats := source.tokenStats.filter
        (fun e => e.1 ≠ "" && e.1.length ≤ 32) }

/-- Reduction modulo 2^32, the pattern of a JavaScript ToUint32 coercion. -/
def m32 (n : ℕ) : ℕ :=
  n % 4294967296

/-- Embedding of Math.imul on 32-bit patterns. -/
def imul32 (a b : ℕ) : ℕ :=
  m32 (a * b)

/-- One output computation of the mulberry32 generator from the updated
state pattern: the xor/shift/imul pipeline of the source on 32-bit
patterns, then division by 2^32. -/
def mulberry32Output (p : ℕ) : ℚ :=
  let a := imul32 (p ^^^ (p >>> 15)) (p ||| 1)
  let b := imul32 (a ^^^ (a >>> 7)) (a ||| 61)
  let c := a ^^^ m32 (a + b)
  ((c ^^^ (c >>> 14) : ℕ) : ℚ) / 4294967296

/-- One step of the mulberry32 generator: add the Weyl constant to the
state and emit the output derived from the new state pattern.  The state
variable itself grows without wrapping, exactly as the JavaScript float
state does; every consumer coerces it modulo 2^32. -/
def randNext (state : ℕ) : ℚ × ℕ :=
  let state2 := state + 1831565813
  (mulberry32Output (m32 state2), state2)

/-- Math.floor of a nonnegative rational as a natural index. -/
def ratFloorNat (q : ℚ) : ℕ :=
  (ratFloor q).toNat

/-- Epsilon for the style bandit. -/
def STYLE_EPSILON : ℚ := 24/100

/-- Epsilon for the randomness bandit. -/
def RANDOMNESS_EPSILON : ℚ := 24/100

/-- Epsilon for the mutation bandit. -/
def MUTATION_EPSILON : ℚ := 28/100

/-- Embedding of chooseArm: with probability epsilon a uniformly random
arm, otherwise a scan for the best average reward where every tie consumes
a coin flip from the seeded source.  The fold accumulator mirrors (best,
bestScore, rng) with bestScore starting at negative infinity (None). -/
def chooseArm [Inhabited α] (bandit : α → ArmStats) (arms : List α)
    (epsilon : ℚ) (rng : ℕ) : α × ℕ :=
  let r1 := randNext rng
  if r1.1 < epsilon then
    let r2 := randNext r1.2
    (arms.getD (ratFloorNat (r2.1 * (arms.length : ℚ))) default, r2.2)
  else
    let folded := arms.foldl
      (fun (acc : α × Option ℚ × ℕ) arm =>
        let score := averageReward (bandit arm)
        match acc.2.1 with
        | none => (arm, some score, acc.2.2)
        | some bs =>
          if score > bs then (arm, some score, acc.2.2)
          else if score = bs then
            let r := randNext acc.2.2
            (if r.1 > 1/2 then arm else acc.1, some bs, r.2)
          else acc)
      (arms.headD default, none, r1.2)
    (folded.1, folded.2.2)

/-- Functional update of one arm. -/
def updateArmStats (stats : ArmStats) (reward : ℚ) : ArmStats :=
  { plays := stats.plays + 1, reward := stats.reward + reward }

/-- Pointwise bandit-table update at the chosen arm. -/
def updateBandit [DecidableEq α] (bandit : α → ArmStats) (arm : α)
    (reward : ℚ) : α → ArmStats :=
  fun a => if a = arm then updateArmStats (bandit a) reward else bandit a

/-- Embedding of tokenizeAndLimit: learning tokens truncated to 12. -/
def tokenizeAndLimit (input : String) : List String :=
  (tokenizeForLearning input).take 12

/-- One mutation operation of mutateTokenSet, threading the seeded source:
remove a weak (else random) token while more than 2 remain, then draw an
insertion candidate from the positive pool 80 percent of the time when it
is nonempty (the short-circuit && consumes no draw when it is empty) and
push it unless already present or empty. -/
def mutateStep (baseTokens positiveTokens weakTokens : List String)
    (state : List String × ℕ) : List String × ℕ :=
  let next := state.1
  let afterRemove : List String × ℕ :=
    if 2 < next.length then
      match next.findIdx? (fun token => weakTokens.contains token) with
      | some weakIdx => (next.eraseIdx weakIdx, state.2)
      | none =>
        let r := randNext state.2
        (next.eraseIdx (ratFloorNat (r.1 * (next.length : ℚ))), r.2)
    else (next, state.2)
  let poolPick : List String × ℕ :=
    if 0 < positiveTokens.length then
      let r := randNext afterRemove.2
      (if r.1 > 1/5 then positiveTokens else baseTokens, r.2)
    else (baseTokens, afterRemove.2)
  let r2 := randNext poolPick.2
  let candidate := poolPick.1.get? (ratFloorNat (r2.1 * (poolPick.1.length : ℚ)))
  match candidate with
  | some c =>
    (if c ≠ "" && !(afterRemove.1.contains c) then afterRemove.1 ++ [c]
     else afterRemove.1, r2.2)
  | none => (afterRemove.1, r2.2)

/-- Iterated mutation operations. -/
def iterateMutate (baseTokens positiveTokens weakTokens : List String) :
    ℕ → List String × ℕ → List String × ℕ
  | 0, state => state
  | n + 1, state =>
    iterateMutate baseTokens positiveTokens weakTokens n
      (mutateStep baseTokens positiveTokens weakTokens state)

/-- Insertion of one element under the inconsistent random comparator
() => random() > 0.5 ? 1 : -1, consuming one draw per comparison. -/
def jsRandomInsert (x : String) : List String → ℕ → List String × ℕ
  | [], rng => ([x], rng)
  | y :: ys, rng =>
    let r := randNext rng
    if r.1 > 1/2 then
      let rest := jsRandomInsert x ys r.2
      (y :: rest.1, rest.2)
    else (x :: y :: ys, r.2)

/-- Deterministic model of Array.prototype.sort applied with the
inconsistent random comparator of the high-intensity shuffle.  The
resulting order of such a sort is implementation defined; an insertion
pass is fixed here, and the claims only rely on the result being a
deterministic function of the token list and the seeded source state. -/
def jsRandomSort : List String → ℕ → List String × ℕ
  | [], rng => ([], rng)
  | x :: xs, rng =>
    let rest := jsRandomSort xs rng
    jsRandomInsert x rest.1 rest.2

/-- Embedding of mutateTokenSet: 1 to 3 mutation operations by intensity, a
shuffle at high intensity when more than 3 tokens remain, then truncation
to 8 tokens. -/
def mutateTokenSet (currentTokens : List String)
    (mutationIntensity : MutationIntensityValue)
    (baseTokens positiveTokens weakTokens : List String) (rng : ℕ) :
    List String × ℕ :=
  let maxMutations : ℕ :=
    if mutationIntensity = .high then 3
    else if mutationIntensity = .medium then 2 else 1
  let afterOps :=
    iterateMutate baseTokens positiveTokens weakTokens maxMutations
      (currentTokens, rng)
  let afterShuffle :=
    if mutationIntensity = .high && 3 < afterOps.1.length then
      jsRandomSort afterOps.1 afterOps.2
    else afterOps
  (afterShuffle.1.take 8, afterShuffle.2)

/-- Embedding of summarizeDescription. -/
def summarizeDescription (tokens : List String) (fallback : String) : String :=
  if tokens = [] then fallback else joinWith " " (tokens.take 10)

/-- The per-loop generation plan. -/
structure LoopPlan where
  loop : ℕ
  sourceLoop : Option ℕ
  selectedStyle : StyleValue
  selectedRandomness : RandomnessValue
  selectedMutationIntensity : MutationIntensityValue
  input : SearchRequest
deriving DecidableEq, Repr

/-- The tuning record returned by recordReward. -/
structure TuningStep where
  loop : ℕ
  sourceLoop : Option ℕ
  keywords : String
  description : String
  selectedStyle : StyleValue
  selectedRandomness : RandomnessValue
  selectedMutationIntensity : MutationIntensityValue
  reward : ℚ
deriving DecidableEq, Repr

/-- The full mutable state of a DomainSearchOptimizer instance: sanitized
model, mulberry32 state, normalised base input, running token sets and the
best-reward tracking (None models the negative-infinity initial best). -/
structure OptimizerState where
  model : OptimizerModelState
  rng : ℕ
  baseInput : SearchRequest
  currentKeywordTokens : List String
  currentDescriptionTokens : List String
  bestLoop : Option ℕ
  bestReward : Option ℚ

/-- Embedding of the DomainSearchOptimizer constructor.  The seed is a
natural; the source coerces it with >>> 0 before use. -/
def mkOptimizer (baseInput : SearchRequest) (modelState : OptimizerModelState)
    (seed : ℕ) : OptimizerState :=
  let base : SearchRequest :=
    { baseInput with
        description := some (baseInput.description.getD "")
        blacklist := some (baseInput.blacklist.getD "") }
  { model := sanitizeOptimizerModelState modelState
    rng := m32 seed
    baseInput := base
    currentKeywordTokens := tokenizeAndLimit base.keywords
    currentDescriptionTokens := tokenizeAndLimit (base.description.getD "")
    bestLoop := none
    bestReward := none }

/-- Body of DomainSearchOptimizer.nextLoop: three epsilon-greedy arm
choices, ranked-token pools, keyword and description mutation, and the
plan assembly with the below-2-characters keyword fallback.  Returns the
plan together with the new rng state and the two new token sets. -/
def nextLoopCore (st : OptimizerState) (loop : ℕ) :
    LoopPlan × ℕ × List String × List String :=
  let c1 := chooseArm st.model.styleBandit STYLE_VALUES STYLE_EPSILON st.rng
  let c2 := chooseArm st.model.randomnessBandit RANDOMNESS_VALUES
    RANDOMNESS_EPSILON c1.2
  let c3 := chooseArm st.model.mutationBandit MUTATION_INTENSITY_VALUES
    MUTATION_EPSILON c2.2
  let rankedTokens := stableSortDescBy (fun e => e.2)
    (st.model.tokenStats.map (fun e => (e.1, averageReward e.2)))
  let positiveTokens :=
    ((rankedTokens.filter (fun e => e.2 ≥ 58/100)).map (fun e => e.1)).take 12
  let weakTokens :=
    ((rankedTokens.filter (fun e => e.2 ≤ 40/100)).map (fun e => e.1)).take 20
  let baseKeywordTokens := tokenizeAndLimit st.baseInput.keywords
  let baseDescriptionTokens := tokenizeAndLimit (st.baseInput.description.getD "")
  let kw := mutateTokenSet
    (if 0 < st.currentKeywordTokens.length then st.currentKeywordTokens
     else baseKeywordTokens)
    c3.1
    (if 0 < baseKeywordTokens.length then baseKeywordTokens
     else ["brand", "company"])
    positiveTokens weakTokens c3.2
  let ds := mutateTokenSet
    (if 0 < st.currentDescriptionTokens.length then st.currentDescriptionTokens
     else baseDescriptionTokens)
    c3.1
    (if 0 < baseDescriptionTokens.length then baseDescriptionTokens
     else baseKeywordTokens)
    positiveTokens weakTokens kw.2
  let keywords := jsTrim (joinWith " " kw.1)
  let description := summarizeDescription ds.1 (st.baseInput.description.getD "")
  ({ loop := loop
     sourceLoop := st.bestLoop
     selectedStyle := c1.1
     selectedRandomness := c2.1
     selectedMutationIntensity := c3.1
     input := { st.baseInput with
                  style := c1.1
                  randomness := c2.1
                  keywords :=
                    if 2 ≤ keywords.length then keywords
                    else st.baseInput.keywords
                  description := some description } },
   ds.2, kw.1, ds.1)

/-- Embedding of DomainSearchOptimizer.nextLoop: the core computation plus
the mutation of the instance fields it writes back (rng state and current
token sets); the model state is read, never written. -/
def nextLoop (st : OptimizerState) (loop : ℕ) : LoopPlan × OptimizerState :=
  ((nextLoopCore st loop).1,
   { st with
       rng := (nextLoopCore st loop).2.1
       currentKeywordTokens := (nextLoopCore st loop).2.2.1
       currentDescriptionTokens := (nextLoopCore st loop).2.2.2 })

/-- The [0,1] clamp applied to a raw reward before accumulation; a
non-finite JavaScript reward maps to 0 and has no rational image, so every
modelled raw reward is finite. -/
def clampReward (reward : ℚ) : ℚ :=
  jsMin 1 (jsMax 0 reward)

/-- Upsert of one token row: update in place when present, else append a
fresh row, each accumulating the bounded reward. -/
def upsertTokenStat (tokenStats : List (String × ArmStats)) (token : String)
    (reward : ℚ) : List (String × ArmStats) :=
  if tokenStats.any (fun e => e.1 = token) then
    tokenStats.map (fun e =>
      if e.1 = token then (token, updateArmStats e.2 reward) else e)
  else tokenStats ++ [(token, updateArmStats createArmStats reward)]

/-- Comparison against the tracked best reward, treating the initial state
as negative infinity (ties favour the later loop, hence less-or-equal). -/
def bestRewardLe (bestReward : Option ℚ) (r : ℚ) : Bool :=
  match bestReward with
  | none => true
  | some b => b ≤ r

/-- Embedding of DomainSearchOptimizer.recordReward: clamp the raw reward,
update the three chosen arms and every token of the plan text, track the
best loop, and return the tuning record. -/
def recordReward (st : OptimizerState) (plan : LoopPlan) (reward : ℚ) :
    TuningStep × OptimizerState :=
  let boundedReward := clampReward reward
  let model2 : OptimizerModelState :=
    { st.model with
        styleBandit := updateBandit st.model.styleBandit plan.selectedStyle
          boundedReward
        randomnessBandit := updateBandit st.model.randomnessBandit
          plan.selectedRandomness boundedReward
        mutationBandit := updateBandit st.model.mutationBandit
          plan.selectedMutationIntensity boundedReward
        tokenStats :=
          (tokenizeAndLimit
            (plan.input.keywords ++ " " ++ plan.input.description.getD "")).foldl
            (fun ts token => upsertTokenStat ts token boundedReward)
            st.model.tokenStats }
  let isNewBest := bestRewardLe st.bestReward boundedReward
  ({ loop := plan.loop
     sourceLoop := plan.sourceLoop
     keywords := plan.input.keywords
     description := plan.input.description.getD ""
     selectedStyle := plan.selectedStyle
     selectedRandomness := plan.selectedRandomness
     selectedMutationIntensity := plan.selectedMutationIntensity
     reward := round4 boundedReward },
   { st with
       model := model2
       bestReward := if isNewBest then some boundedReward else st.bestReward
       bestLoop := if isNewBest then some plan.loop else st.bestLoop })

/-- The state-mutating optimizer operations a job can perform. -/
inductive OptimizerOp where
  | planLoop (loop : ℕ)
  | rewardStep (plan : LoopPlan) (raw : ℚ)

/-- State transition of one optimizer operation.  The planLoop branch is
the state component of nextLoop written as the direct field update (the
plan result is discarded); nextLoop never writes the model field. -/
def applyOptimizerOp (st : OptimizerState) : OptimizerOp → OptimizerState
  | .planLoop loop =>
    { st with
        rng := (nextLoopCore st loop).2.1
        currentKeywordTokens := (nextLoopCore st loop).2.2.1
        currentDescriptionTokens := (nextLoopCore st loop).2.2.2 }
  | .rewardStep plan raw => (recordReward st plan raw).2

/-- The bandit-arm invariant of the specification: the cumulative reward is
nonnegative and bounded by the play count. -/
def armInvariant (stats : ArmStats) : Prop :=
  0 ≤ stats.reward ∧ stats.reward ≤ (stats.plays : ℚ)

/-- The arm invariant over every BanditArmStats record of a model state:
all three categorical tables and every token row. -/
def modelArmInvariant (m : OptimizerModelState) : Prop :=
  (∀ a, armInvariant (m.styleBandit a))
  ∧ (∀ a, armInvariant (m.randomnessBandit a))
  ∧ (∀ a, armInvariant (m.mutationBandit a))
  ∧ (∀ e ∈ m.tokenStats, armInvariant e.2)

/-! ## Bridging lemmas for the computable numeric helpers -/

theorem jsMin_eq (a b : ℚ) : jsMin a b = min a b := by
  rw [jsMin, min_def]

theorem jsMax_eq (a b : ℚ) : jsMax a b = max a b := by
  rw [jsMax, max_def]

theorem jsAbs_eq (q : ℚ) : jsAbs q = |q| := by
  rw [jsAbs]
  rcases lt_or_le q 0 with h | h
  · rw [if_pos h, abs_of_neg h]
  · rw [if_neg (not_lt.mpr h), abs_of_nonneg h]

theorem ratFloor_eq (q : ℚ) : ratFloor q = ⌊q⌋ :=
  Rat.floor_def.symm

theorem jsRound_eq (q : ℚ) : jsRound q = round q := by
  rw [jsRound, ratFloor_eq, round_eq]

theorem jsRound_mono {q r : ℚ} (h : q ≤ r) : jsRound q ≤ jsRound r := by
  rw [jsRound, jsRound, ratFloor_eq, ratFloor_eq]
  exact Int.floor_le_floor (by linarith)

theorem jsRound_le {q : ℚ} {n : ℤ} (h : q ≤ (n : ℚ)) : jsRound q ≤ n := by
  rw [jsRound, ratFloor_eq]
  have : (q + 1/2 : ℚ) < (n : ℚ) + 1 := by linarith
  exact Int.lt_add_one_iff.mp (Int.floor_lt.mpr (by exact_mod_cast this))

theorem le_jsRound {q : ℚ} {n : ℤ} (h : (n : ℚ) ≤ q) : n ≤ jsRound q := by
  rw [jsRound, ratFloor_eq]
  exact Int.le_floor.mpr (by linarith)

theorem round2_mono {q r : ℚ} (h : q ≤ r) : round2 q ≤ round2 r := by
  rw [round2, round2]
  have h100 : jsRound (q * 100) ≤ jsRound (r * 100) := jsRound_mono (by linarith)
  have : ((jsRound (q * 100) : ℚ)) ≤ (jsRound (r * 100) : ℚ) := by exact_mod_cast h100
  linarith

theorem round2_nonneg {q : ℚ} (h : 0 ≤ q) : 0 ≤ round2 q := by
  rw [round2]
  have h0 : (0 : ℤ) ≤ jsRound (q * 100) := le_jsRound (by push_cast; linarith)
  have : (0 : ℚ) ≤ (jsRound (q * 100) : ℚ) := by exact_mod_cast h0
  linarith

theorem round2_le_100 {q : ℚ} (h : q ≤ 100) : round2 q ≤ 100 := by
  rw [round2]
  have h1 : jsRound (q * 100) ≤ (10000 : ℤ) := jsRound_le (by push_cast; linarith)
  have : ((jsRound (q * 100) : ℚ)) ≤ 10000 := by exact_mod_cast h1
  linarith

theorem clamp_le_hi {v lo hi : ℚ} : clamp v lo hi ≤ hi := by
  rw [clamp, jsMin_eq]
  exact min_le_left _ _

theorem lo_le_clamp {v lo hi : ℚ} (h : lo ≤ hi) : lo ≤ clamp v lo hi := by
  rw [clamp, jsMin_eq, jsMax_eq]
  exact le_min h (le_max_left _ _)

theorem clamp_mono {v w lo hi : ℚ} (h : v ≤ w) :
    clamp v lo hi ≤ clamp w lo hi := by
  rw [clamp, clamp, jsMin_eq, jsMin_eq, jsMax_eq, jsMax_eq]
  exact min_le_min le_rfl (max_le_max le_rfl h)

/-! ## Chunking lemmas -/

theorem chunkDomains_flatten (l : List α) (S : ℕ) :
    (chunkDomains l S).flatten = l := by
  induction l, S using chunkDomains.induct with
  | case1 S => simp [chunkDomains]
  | case2 S x xs ih =>
    simp only [chunkDomains, List.flatten_cons, ih, List.cons_append]
    rw [List.take_append_drop]

theorem chunkDomains_length (l : List α) (S : ℕ) (hS : 0 < S) :
    (chunkDomains l S).length = (l.length + S - 1) / S := by
  induction l, S using chunkDomains.induct with
  | case1 S =>
    simp only [chunkDomains, List.length_nil]
    rw [Nat.div_eq_of_lt (by omega)]
  | case2 S x xs ih =>
    have ih2 := ih hS
    rw [List.length_drop] at ih2
    simp only [chunkDomains, List.length_cons, ih2]
    rcases le_or_lt (S - 1) xs.length with h | h
    · have h1 : xs.length - (S - 1) + S - 1 = xs.length := by omega
      have h2 : xs.length + 1 + S - 1 = xs.length + S := by omega
      rw [h1, h2, Nat.add_div_right _ hS, Nat.add_comm]
    · have h1 : xs.length - (S - 1) + S - 1 = S - 1 := by omega
      have h2 : xs.length + 1 + S - 1 = xs.length + S := by omega
      have h3 : (xs.length + S) / S = 1 := Nat.div_eq_of_lt_le (by omega) (by omega)
      rw [h1, h2, Nat.div_eq_of_lt (by omega), h3]

theorem chunkDomains_sizes (l : List α) (S : ℕ) (hS : 0 < S) :
    ∀ c ∈ chunkDomains l S, c.length ≤ S := by
  induction l, S using chunkDomains.induct with
  | case1 S => simp [chunkDomains]
  | case2 S x xs ih =>
    intro c hc
    rw [chunkDomains] at hc
    rcases List.mem_cons.mp hc with hhead | htail
    · subst hhead
      simp only [List.length_cons, List.length_take]
      omega
    · exact ih hS c htail

/-! ## Claim C9: batch chunking -/

/-- C9: for every list of N domains and every chunk size S > 0, chunkDomains
returns exactly ceil(N/S) = (N + S - 1) / S chunks, each of length at most
S, whose order-preserving concatenation equals the input list. -/
theorem c9_chunking (domains : List String) (S : ℕ) (hS : 0 < S) :
    (chunkDomains domains S).length = (domains.length + S - 1) / S
    ∧ (∀ c ∈ chunkDomains domains S, c.length ≤ S)
    ∧ (chunkDomains domains S).flatten = domains :=
  ⟨chunkDomains_length domains S hS, chunkDomains_sizes domains S hS,
    chunkDomains_flatten domains S⟩

/-- Witness for C9 at a concrete five-element list with chunk size 2. -/
theorem c9_witness :
    (chunkDomains ["alpha.com", "beta.com", "gamma.com", "delta.com", "epsilon.com"] 2).length
      = (["alpha.com", "beta.com", "gamma.com", "delta.com", "epsilon.com"].length + 2 - 1) / 2
    ∧ (∀ c ∈ chunkDomains ["alpha.com", "beta.com", "gamma.com", "delta.com", "epsilon.com"] 2,
        c.length ≤ 2)
    ∧ (chunkDomains ["alpha.com", "beta.com", "gamma.com", "delta.com", "epsilon.com"] 2).flatten
      = ["alpha.com", "beta.com", "gamma.com", "delta.com", "epsilon.com"] :=
  c9_chunking _ 2 (by decide)

/-! ## Claim C4: the job error boundary -/

/-- C4: runSearchJob never propagates an exception: every thrown error
takes the job to the terminal failed status carrying the typed error
mapped by mapErrorToJobError, whose codes follow the instanceof chain
(scrape errors give NAMELIX_SCRAPE_FAILED, provider auth / rate-limit /
API errors give their codes, anything else gives INTERNAL_ERROR); every
body outcome ends the job in a terminal done or failed status. -/
theorem c4_error_boundary {Results : Type} (job : SearchJobState Results)
    (e : JsThrown) :
    (runSearchJobOutcome job (Except.error e)).status = JobStatus.failed
    ∧ (runSearchJobOutcome job (Except.error e)).error
      = some (mapErrorToJobError e)
    ∧ (∀ body : Except JsThrown Results,
        (runSearchJobOutcome job body).status = JobStatus.done
        ∨ (runSearchJobOutcome job body).status = JobStatus.failed)
    ∧ (∀ m, (mapErrorToJobError (JsThrown.namelixScrape m)).code
        = "NAMELIX_SCRAPE_FAILED")
    ∧ (∀ m, (mapErrorToJobError (JsThrown.godaddyAuth m)).code
        = "GODADDY_AUTH_FAILED")
    ∧ (∀ m, (mapErrorToJobError (JsThrown.godaddyRateLimit m)).code
        = "GODADDY_RATE_LIMIT")
    ∧ (∀ m, (mapErrorToJobError (JsThrown.godaddyApi m)).code
        = "GODADDY_API_ERROR")
    ∧ (∀ m, (mapErrorToJobError (JsThrown.otherError m)).code
        = "INTERNAL_ERROR")
    ∧ (mapErrorToJobError JsThrown.nonError).code = "INTERNAL_ERROR" := by
  refine ⟨?_, ?_, ?_, ?_, ?_, ?_, ?_, ?_, ?_⟩
  · cases e <;> rfl
  · cases e <;> rfl
  · intro body
    cases body with
    | ok results => exact Or.inl rfl
    | error e2 => exact Or.inr (by cases e2 <;> rfl)
  · intro m; rfl
  · intro m; rfl
  · intro m; rfl
  · intro m; rfl
  · intro m; rfl
  · rfl

/-! ## Claim C6: generation queue cooldown -/

/-- C6 counterexample: the queue records the time immediately BEFORE the
task runs, not its completion time; with a 10-second task and zero jitter
the next start follows the previous FINISH by only 10 seconds, less than
the 20-second cooldown the claim asserts. -/
theorem c6_counterexample :
    (runNamelixQueued 0 1000000 0 10000).2.2
      ≠ (runNamelixQueued 0 1000000 0 10000).2.1
    ∧ (runNamelixQueued (runNamelixQueued 0 1000000 0 10000).2.2
        (runNamelixQueued 0 1000000 0 10000).2.1 0 0).1
      - (runNamelixQueued 0 1000000 0 10000).2.1
      < NAMELIX_BASE_COOLDOWN_MS := by
  decide

/-- C6 amended: the queue computes targetStart from the START time of the
previous task (recorded immediately before running it) plus the fixed
cooldown plus the jitter, so consecutive generation task starts are
separated by at least the cooldown measured start to start, and the
recorded timestamp equals the start time. -/
theorem c6_cooldown_from_start (lastRunAt now1 jitter1 dur1 now2 jitter2 dur2 : ℕ)
    (_hserial : (runNamelixQueued lastRunAt now1 jitter1 dur1).2.1 ≤ now2) :
    (runNamelixQueued lastRunAt now1 jitter1 dur1).2.2
      = (runNamelixQueued lastRunAt now1 jitter1 dur1).1
    ∧ (runNamelixQueued lastRunAt now1 jitter1 dur1).1 + NAMELIX_BASE_COOLDOWN_MS
      ≤ (runNamelixQueued (runNamelixQueued lastRunAt now1 jitter1 dur1).2.2
          now2 jitter2 dur2).1 := by
  constructor
  · rfl
  · show (runNamelixQueued lastRunAt now1 jitter1 dur1).1 + NAMELIX_BASE_COOLDOWN_MS
      ≤ max now2 ((runNamelixQueued lastRunAt now1 jitter1 dur1).1
          + NAMELIX_BASE_COOLDOWN_MS + jitter2)
    calc (runNamelixQueued lastRunAt now1 jitter1 dur1).1 + NAMELIX_BASE_COOLDOWN_MS
        ≤ (runNamelixQueued lastRunAt now1 jitter1 dur1).1
            + NAMELIX_BASE_COOLDOWN_MS + jitter2 := Nat.le_add_right _ _
      _ ≤ max now2 _ := Nat.le_max_right _ _

/-- Witness for C6 at concrete times: a first call starting at time 10^6
with a 10-second duration, the second submitted at the first finish. -/
theorem c6_witness :
    ((runNamelixQueued 0 1000000 0 10000).2.1 ≤ 1010000)
    ∧ ((runNamelixQueued 0 1000000 0 10000).2.2
        = (runNamelixQueued 0 1000000 0 10000).1
      ∧ (runNamelixQueued 0 1000000 0 10000).1 + NAMELIX_BASE_COOLDOWN_MS
        ≤ (runNamelixQueued (runNamelixQueued 0 1000000 0 10000).2.2
            1010000 3000 5000).1) :=
  ⟨by decide, c6_cooldown_from_start 0 1000000 0 10000 1010000 3000 5000 (by decide)⟩

/-! ## Aggregator merge lemmas -/

theorem priceNe_iff (a b : Option ℚ) :
    priceNe a b = true ↔ jsPrice a ≠ jsPrice b := by
  cases a <;> cases b <;>
    simp [priceNe, jsPrice]

theorem priceLt_iff (a b : Option ℚ) :
    priceLt a b = true ↔ jsPrice a < jsPrice b := by
  cases a <;> cases b <;>
    simp [priceLt, jsPrice, WithTop.coe_lt_top, WithTop.coe_lt_coe]

theorem domainBefore_iff (a b : String) : domainBefore a b = true ↔ a < b := by
  simp [domainBefore]

theorem shouldReplaceByScore_iff (e c : RankedDomainResult) :
    shouldReplaceByScore e c = true ↔
      (e.overallScore < c.overallScore
      ∨ (c.overallScore = e.overallScore ∧ jsPrice c.price < jsPrice e.price)
      ∨ (c.overallScore = e.overallScore ∧ jsPrice c.price = jsPrice e.price
          ∧ c.domain < e.domain)) := by
  rw [shouldReplaceByScore]
  by_cases hs : c.overallScore = e.overallScore
  · rw [if_neg (by simp [hs])]
    by_cases hp : jsPrice c.price = jsPrice e.price
    · rw [if_neg (fun h => ((priceNe_iff _ _).mp h) hp)]
      rw [domainBefore_iff]
      constructor
      · intro hd
        exact Or.inr (Or.inr ⟨hs, hp, hd⟩)
      · rintro (habs | ⟨_, habs⟩ | ⟨_, _, hd⟩)
        · exact absurd habs (by rw [hs]; exact lt_irrefl _)
        · exact absurd habs (by rw [hp]; exact lt_irrefl _)
        · exact hd
    · rw [if_pos (by rw [priceNe_iff]; exact hp)]
      rw [priceLt_iff]
      constructor
      · intro hlt
        exact Or.inr (Or.inl ⟨hs, hlt⟩)
      · rintro (habs | ⟨_, hlt⟩ | ⟨_, heq, _⟩)
        · exact absurd habs (by rw [hs]; exact lt_irrefl _)
        · exact hlt
        · exact absurd heq hp
  · rw [if_pos (by simpa using hs)]
    simp only [decide_eq_true_eq]
    constructor
    · intro hlt
      exact Or.inl hlt
    · rintro (hlt | ⟨heq, _⟩ | ⟨heq, _, _⟩)
      · exact hlt
      · exact absurd heq hs
      · exact absurd heq hs

theorem mergeAggregateEntry_fields (e c : RankedDomainResult) (loop : ℕ) :
    (mergeAggregateEntry (some e) c loop).firstSeenLoop = e.firstSeenLoop
    ∧ (mergeAggregateEntry (some e) c loop).lastSeenLoop = loop
    ∧ (mergeAggregateEntry (some e) c loop).timesDiscovered
      = e.timesDiscovered + 1 :=
  ⟨rfl, rfl, rfl⟩

theorem mergeAggregateEntry_score_mono (e c : RankedDomainResult) (loop : ℕ) :
    e.overallScore ≤ (mergeAggregateEntry (some e) c loop).overallScore := by
  show e.overallScore
    ≤ (if shouldReplaceByScore e c then c else e).overallScore
  by_cases h : shouldReplaceByScore e c = true
  · rw [if_pos h]
    rcases (shouldReplaceByScore_iff e c).mp h with hlt | ⟨heq, _⟩ | ⟨heq, _, _⟩
    · exact le_of_lt hlt
    · exact le_of_eq heq.symm
    · exact le_of_eq heq.symm
  · rw [if_neg h]

/-- Concrete ranked row for the two-loop nova.com scenario, tagged with the
loop that discovered it. -/
def novaRow (loop : ℕ) : RankedDomainResult :=
  { domain := "nova.com", sourceName := "Nova", isNamelixPremium := false,
    available := true, definitive := true, priceMicros := none,
    currency := some "USD", period := some 1, reason := none, price := some 9,
    overBudget := false, marketabilityScore := 70, financialValueScore := 100,
    overallScore := 88, syllableCount := 2, labelLength := 4,
    valueDrivers := [], valueDetractors := [],
    firstSeenLoop := loop, lastSeenLoop := loop, timesDiscovered := 1 }

/-- C3: the aggregator merge chooses the kept record by higher overall
score, then lower defaulted price, then lexicographically earlier domain;
the merged entry preserves the existing firstSeenLoop, stamps lastSeenLoop
with the current loop and increments timesDiscovered by exactly one; the
kept score never decreases under a re-merge; and a domain discovered once
in each of loops 1 and 2 ends as a single aggregate entry with
timesDiscovered 2, firstSeenLoop 1 and lastSeenLoop 2. -/
theorem c3_merge_semantics (e c : RankedDomainResult) (loop : ℕ) :
    (shouldReplaceByScore e c = true ↔
      (e.overallScore < c.overallScore
      ∨ (c.overallScore = e.overallScore ∧ jsPrice c.price < jsPrice e.price)
      ∨ (c.overallScore = e.overallScore ∧ jsPrice c.price = jsPrice e.price
          ∧ c.domain < e.domain)))
    ∧ (mergeAggregateEntry (some e) c loop).firstSeenLoop = e.firstSeenLoop
    ∧ (mergeAggregateEntry (some e) c loop).lastSeenLoop = loop
    ∧ (mergeAggregateEntry (some e) c loop).timesDiscovered
      = e.timesDiscovered + 1
    ∧ e.overallScore ≤ (mergeAggregateEntry (some e) c loop).overallScore
    ∧ mergeRowsIntoAggregate (mergeRowsIntoAggregate [] [novaRow 1] 1)
        [novaRow 2] 2
      = [("nova.com",
          { domain := "nova.com", sourceName := "Nova", isNamelixPremium := false,
            available := true, definitive := true, priceMicros := none,
            currency := some "USD", period := some 1, reason := none,
            price := some 9, overBudget := false, marketabilityScore := 70,
            financialValueScore := 100, overallScore := 88, syllableCount := 2,
            labelLength := 4, valueDrivers := [], valueDetractors := [],
            firstSeenLoop := 1, lastSeenLoop := 2, timesDiscovered := 2 })] := by
  refine ⟨shouldReplaceByScore_iff e c, rfl, rfl, rfl,
    mergeAggregateEntry_score_mono e c loop, ?_⟩
  have hstep1 : mergeRowsIntoAggregate [] [novaRow 1] 1
      = [("nova.com", novaRow 1)] := by
    with_unfolding_all decide
  rw [hstep1]
  with_unfolding_all decide

/-! ## Score bound lemmas -/

theorem clamp_0_100_bounds (x : ℚ) : 0 ≤ clamp x 0 100 ∧ clamp x 0 100 ≤ 100 :=
  ⟨lo_le_clamp (by norm_num), clamp_le_hi⟩

theorem round2_bounds {q : ℚ} (h0 : 0 ≤ q) (h1 : q ≤ 100) :
    0 ≤ round2 q ∧ round2 q ≤ 100 :=
  ⟨round2_nonneg h0, round2_le_100 h1⟩

theorem round2_clamp_bounds (x : ℚ) :
    0 ≤ round2 (clamp x 0 100) ∧ round2 (clamp x 0 100) ≤ 100 :=
  round2_bounds (clamp_0_100_bounds x).1 (clamp_0_100_bounds x).2

theorem round2_scale_bounds {x k : ℚ} (h0 : 0 ≤ x) (h1 : x ≤ 100)
    (hk0 : 0 ≤ k) (hk1 : k ≤ 1) :
    0 ≤ round2 (x * k) ∧ round2 (x * k) ≤ 100 := by
  refine round2_bounds (mul_nonneg h0 hk0) ?_
  calc x * k ≤ 100 * 1 := mul_le_mul h1 hk1 hk0 (by norm_num)
    _ = 100 := by norm_num

theorem marketabilityScoreOf_bounds (domain : String) (input : SearchRequest) :
    0 ≤ marketabilityScoreOf domain input
    ∧ marketabilityScoreOf domain input ≤ 100 := by
  rw [marketabilityScoreOf]
  exact round2_clamp_bounds _

theorem financialValueScoreOf_bounds (result : DomainResult)
    (input : SearchRequest) :
    0 ≤ financialValueScoreOf result input
    ∧ financialValueScoreOf result input ≤ 100 := by
  rw [financialValueScoreOf]
  have hbase := round2_clamp_bounds (weightedSum (financialComponents result input))
  by_cases hb : result.overBudget = true <;> by_cases ha : result.available = true
  · simp only [hb, if_true, ha]
    exact round2_scale_bounds hbase.1 hbase.2 (by norm_num) (by norm_num)
  · simp only [hb, if_true, ha, if_false, Bool.false_eq_true]
    have h82 := round2_scale_bounds hbase.1 hbase.2
      (show (0:ℚ) ≤ 82/100 by norm_num) (by norm_num)
    exact round2_scale_bounds h82.1 h82.2 (by norm_num) (by norm_num)
  · simp only [hb, ha, Bool.false_eq_true, if_false, if_true]
    exact hbase
  · simp only [hb, ha, Bool.false_eq_true, if_false]
    exact round2_scale_bounds hbase.1 hbase.2 (by norm_num) (by norm_num)

theorem overallScoreOf_bounds (result : DomainResult) (input : SearchRequest) :
    0 ≤ overallScoreOf result input ∧ overallScoreOf result input ≤ 100 := by
  rw [overallScoreOf]
  exact round2_clamp_bounds _

/-! ## Claim C5: score ranges -/

/-- C5: for every DomainResult and SearchRequest the marketability,
financial-value and overall scores returned by scoreDomainResult lie in
[0,100], including after the over-budget and unavailability discount
multipliers. -/
theorem c5_scores_bounded (result : DomainResult) (input : SearchRequest) :
    (0 ≤ (scoreDomainResult result input).marketabilityScore
      ∧ (scoreDomainResult result input).marketabilityScore ≤ 100)
    ∧ (0 ≤ (scoreDomainResult result input).financialValueScore
      ∧ (scoreDomainResult result input).financialValueScore ≤ 100)
    ∧ (0 ≤ (scoreDomainResult result input).overallScore
      ∧ (scoreDomainResult result input).overallScore ≤ 100) := by
  refine ⟨?_, ?_, ?_⟩
  · exact marketabilityScoreOf_bounds result.domain input
  · exact financialValueScoreOf_bounds result input
  · exact overallScoreOf_bounds result input

/-! ## Affordability monotonicity lemmas -/

theorem calculateAffordabilityScore_anti (b : ℚ) {p1 p2 : ℚ} (h : p2 ≤ p1) :
    calculateAffordabilityScore (some p1) b
      ≤ calculateAffordabilityScore (some p2) b := by
  rw [calculateAffordabilityScore, calculateAffordabilityScore]
  apply clamp_mono
  have hm : (0 : ℚ) < jsMax 1 b := by
    rw [jsMax_eq]
    exact lt_of_lt_of_le one_pos (le_max_left 1 b)
  have hdiv : p2 / jsMax 1 b ≤ p1 / jsMax 1 b :=
    (div_le_div_iff_of_pos_right hm).mpr h
  linarith

theorem financialValueScoreOf_price_anti (r : DomainResult)
    (input : SearchRequest) (p1 p2 : ℚ) (hav : r.available = true)
    (hob : r.overBudget = false) (hp : p2 ≤ p1) :
    financialValueScoreOf { r with price := some p1 } input
      ≤ financialValueScoreOf { r with price := some p2 } input := by
  have haff := calculateAffordabilityScore_anti input.yearlyBudget hp
  have hsum : weightedSum (financialComponents { r with price := some p1 } input)
      ≤ weightedSum (financialComponents { r with price := some p2 } input) := by
    simp only [financialComponents, weightedSum, List.foldl]
    have h38 : calculateAffordabilityScore (some p1) input.yearlyBudget * (38/100)
        ≤ calculateAffordabilityScore (some p2) input.yearlyBudget * (38/100) :=
      mul_le_mul_of_nonneg_right haff (by norm_num)
    linarith
  have hclamp : clamp (weightedSum (financialComponents
        { r with price := some p1 } input)) 0 100
      ≤ clamp (weightedSum (financialComponents
        { r with price := some p2 } input)) 0 100 := clamp_mono hsum
  have hbase := round2_mono hclamp
  simp only [financialValueScoreOf, hob, hav, Bool.false_eq_true, if_false,
    if_true]
  simp only [hav, hob] at hbase
  exact hbase

/-! ## Claim C1: affordability monotonicity -/

/-- Fixed scoring request used by the concrete affordability inputs. -/
def affordableInput : SearchRequest :=
  { keywords := "bright finance tools", description := some "",
    style := .default, randomness := .medium, blacklist := some "",
    maxLength := 16, tld := "com", maxNames := 50, yearlyBudget := 100,
    loopCount := 1 }

/-- Concrete available, in-budget scoring result with the price left open. -/
def affordableBase : DomainResult :=
  { domain := "brightflow.com", sourceName := "Bright Flow",
    isNamelixPremium := false, available := true, definitive := true,
    priceMicros := none, currency := none, period := none, reason := none,
    price := none, overBudget := false }

/-- C1 counterexample: two available, in-budget inputs identical except the
price (10 versus 5 against a 100 budget, both inside the clamp saturation
region of the affordability component) receive EQUAL overall scores, so
the overall score does not strictly increase as the price decreases. -/
theorem c1_counterexample :
    (5 : ℚ) < 10
    ∧ affordableBase.available = true
    ∧ affordableBase.overBudget = false
    ∧ (scoreDomainResult { affordableBase with price := some 5 } affordableInput).overallScore
      = (scoreDomainResult { affordableBase with price := some 10 } affordableInput).overallScore := by
  refine ⟨by norm_num, rfl, rfl, ?_⟩
  show overallScoreOf { affordableBase with price := some 5 } affordableInput
    = overallScoreOf { affordableBase with price := some 10 } affordableInput
  have hf5 : financialValueScoreOf { affordableBase with price := some 5 }
      affordableInput = 100 := by
    with_unfolding_all decide
  have hf10 : financialValueScoreOf { affordableBase with price := some 10 }
      affordableInput = 100 := by
    with_unfolding_all decide
  rw [overallScoreOf, overallScoreOf, hf5, hf10]

/-- C1 amended: for available, in-budget inputs identical except a lower
price, the overall score never decreases (non-strict monotonicity); the
strict form of the claim fails when the affordability component saturates
at its clamp bound (or when a difference vanishes under the 2-decimal
rounding), as the counterexample shows. -/
theorem c1_affordability_mono (r : DomainResult) (input : SearchRequest)
    (p1 p2 : ℚ) (hav : r.available = true) (hob : r.overBudget = false)
    (hp : p2 < p1) :
    (scoreDomainResult { r with price := some p1 } input).overallScore
      ≤ (scoreDomainResult { r with price := some p2 } input).overallScore := by
  show overallScoreOf { r with price := some p1 } input
    ≤ overallScoreOf { r with price := some p2 } input
  have hfin := financialValueScoreOf_price_anti r input p1 p2 hav hob
    (le_of_lt hp)
  rw [overallScoreOf, overallScoreOf]
  apply round2_mono
  apply clamp_mono
  have hmarket : marketabilityScoreOf
      ({ r with price := some p1 } : DomainResult).domain input
      = marketabilityScoreOf ({ r with price := some p2 } : DomainResult).domain
          input := rfl
  rw [hmarket]
  exact add_le_add (mul_le_mul_of_nonneg_right hfin (by norm_num)) le_rfl

/-- Witness for C1 at the concrete inputs of the counterexample pair. -/
theorem c1_witness :
    (affordableBase.available = true ∧ affordableBase.overBudget = false
      ∧ (5 : ℚ) < 10)
    ∧ (scoreDomainResult { affordableBase with price := some 10 } affordableInput).overallScore
      ≤ (scoreDomainResult { affordableBase with price := some 5 } affordableInput).overallScore :=
  ⟨⟨rfl, rfl, by norm_num⟩,
    c1_affordability_mono affordableBase affordableInput 10 5 rfl rfl
      (by norm_num)⟩

/-! ## Reward invariant lemmas -/

theorem clampReward_bounds (raw : ℚ) :
    0 ≤ clampReward raw ∧ clampReward raw ≤ 1 := by
  rw [clampReward, jsMin_eq, jsMax_eq]
  constructor
  · exact le_min (by norm_num) (le_max_left 0 raw)
  · exact min_le_left 1 _

theorem updateArmStats_inv {stats : ArmStats} {b : ℚ}
    (hinv : armInvariant stats) (hb0 : 0 ≤ b) (hb1 : b ≤ 1) :
    armInvariant (updateArmStats stats b) := by
  refine ⟨add_nonneg hinv.1 hb0, ?_⟩
  show stats.reward + b ≤ ((stats.plays + 1 : ℕ) : ℚ)
  push_cast
  have := hinv.2
  linarith

theorem updateBandit_inv [DecidableEq α] {bandit : α → ArmStats} {arm : α}
    {b : ℚ} (hinv : ∀ a, armInvariant (bandit a)) (hb0 : 0 ≤ b) (hb1 : b ≤ 1) :
    ∀ a, armInvariant (updateBandit bandit arm b a) := by
  intro a
  rw [updateBandit]
  by_cases h : a = arm
  · rw [if_pos h]
    exact updateArmStats_inv (hinv a) hb0 hb1
  · rw [if_neg h]
    exact hinv a

theorem upsertTokenStat_inv {tokenStats : List (String × ArmStats)}
    {token : String} {b : ℚ} (hinv : ∀ e ∈ tokenStats, armInvariant e.2)
    (hb0 : 0 ≤ b) (hb1 : b ≤ 1) :
    ∀ e ∈ upsertTokenStat tokenStats token b, armInvariant e.2 := by
  intro e he
  rw [upsertTokenStat] at he
  by_cases hany : tokenStats.any (fun e => e.1 = token) = true
  · rw [if_pos hany] at he
    rcases List.mem_map.mp he with ⟨old, hold, heq⟩
    by_cases hk : old.1 = token
    · rw [if_pos hk] at heq
      subst heq
      exact updateArmStats_inv (hinv old hold) hb0 hb1
    · rw [if_neg hk] at heq
      subst heq
      exact hinv old hold
  · rw [if_neg hany] at he
    rcases List.mem_append.mp he with hold | hnew
    · exact hinv e hold
    · rcases List.mem_singleton.mp hnew with rfl
      refine updateArmStats_inv ⟨le_rfl, ?_⟩ hb0 hb1
      show (0 : ℚ) ≤ ((0 : ℕ) : ℚ)
      norm_num

theorem tokenFold_inv {tokenStats : List (String × ArmStats)} {b : ℚ}
    (tokens : List String) (hinv : ∀ e ∈ tokenStats, armInvariant e.2)
    (hb0 : 0 ≤ b) (hb1 : b ≤ 1) :
    ∀ e ∈ tokens.foldl (fun ts token => upsertTokenStat ts token b) tokenStats,
      armInvariant e.2 := by
  induction tokens generalizing tokenStats with
  | nil => exact hinv
  | cons t ts ih =>
    exact ih (upsertTokenStat_inv hinv hb0 hb1)

theorem recordReward_model_inv (st : OptimizerState) (plan : LoopPlan)
    (raw : ℚ) (hinv : modelArmInvariant st.model) :
    modelArmInvariant ((recordReward st plan raw).2).model := by
  have hb := clampReward_bounds raw
  refine ⟨?_, ?_, ?_, ?_⟩
  · exact updateBandit_inv hinv.1 hb.1 hb.2
  · exact updateBandit_inv hinv.2.1 hb.1 hb.2
  · exact updateBandit_inv hinv.2.2.1 hb.1 hb.2
  · exact tokenFold_inv _ hinv.2.2.2 hb.1 hb.2

theorem applyOp_planLoop_model (st : OptimizerState) (loop : ℕ) :
    (applyOptimizerOp st (OptimizerOp.planLoop loop)).model = st.model := by
  show ({ st with
      rng := (nextLoopCore st loop).2.1
      currentKeywordTokens := (nextLoopCore st loop).2.2.1
      currentDescriptionTokens := (nextLoopCore st loop).2.2.2 } : OptimizerState).model
    = st.model
  rfl

theorem createArmStats_inv : armInvariant createArmStats := by
  refine ⟨le_rfl, ?_⟩
  show (0 : ℚ) ≤ ((0 : ℕ) : ℚ)
  norm_num

theorem mkOptimizer_default_inv (base : SearchRequest) (seed : ℕ) :
    modelArmInvariant
      (mkOptimizer base createDefaultOptimizerModelState seed).model := by
  refine ⟨?_, ?_, ?_, ?_⟩
  · intro a
    show armInvariant createArmStats
    exact createArmStats_inv
  · intro a
    show armInvariant createArmStats
    exact createArmStats_inv
  · intro a
    show armInvariant createArmStats
    exact createArmStats_inv
  · intro e he
    simp [mkOptimizer, sanitizeOptimizerModelState,
      createDefaultOptimizerModelState] at he

theorem foldOps_model_inv (ops : List OptimizerOp) (st : OptimizerState)
    (hinv : modelArmInvariant st.model) :
    modelArmInvariant ((ops.foldl applyOptimizerOp st).model) := by
  induction ops generalizing st with
  | nil => exact hinv
  | cons op ops ih =>
    apply ih
    cases op with
    | planLoop loop =>
      show modelArmInvariant (applyOptimizerOp st (OptimizerOp.planLoop loop)).model
      rw [applyOp_planLoop_model]
      exact hinv
    | rewardStep plan raw =>
      exact recordReward_model_inv st plan raw hinv

/-! ## Claim C7: reward clamping invariant -/

/-- C7: recordReward always accumulates a reward clamped to [0,1] (into the
three chosen categorical arms and every learning token of the plan text),
and consequently every BanditArmStats record of a model state reachable by
any sequence of optimizer operations from a fresh optimizer satisfies
0 ≤ cumulative reward ≤ plays. -/
theorem c7_reward_invariant (base : SearchRequest) (seed : ℕ)
    (ops : List OptimizerOp) :
    (∀ raw : ℚ, 0 ≤ clampReward raw ∧ clampReward raw ≤ 1)
    ∧ modelArmInvariant
        ((ops.foldl applyOptimizerOp
          (mkOptimizer base createDefaultOptimizerModelState seed)).model) :=
  ⟨clampReward_bounds,
    foldOps_model_inv ops _ (mkOptimizer_default_inv base seed)⟩

/-! ## Claim C8: seeded determinism of the optimizer -/

/-- Concrete base request for the determinism witness, matching the
repository test fixture. -/
def seededBaseInput : SearchRequest :=
  { keywords := "cloud backup secure",
    description := some "reliable encrypted storage", style := .default,
    randomness := .medium, blacklist := some "", maxLength := 16,
    tld := "com", maxNames := 40, yearlyBudget := 100, loopCount := 3 }

/-- C8: two optimizer instances constructed independently from the same
base request, the same model state and the same fixed seed produce
identical arm selections and identical mutated keyword and description
strings for loop 1.  In the embedding every source of randomness is the
mulberry32 stream seeded by the constructor argument, so the loop-1 plan
is a function of (request, model, seed) alone. -/
theorem c8_seed_determinism (b1 b2 : SearchRequest)
    (m1 m2 : OptimizerModelState) (s1 s2 : ℕ)
    (hb : b1 = b2) (hm : m1 = m2) (hs : s1 = s2) :
    (nextLoop (mkOptimizer b1 m1 s1) 1).1.selectedStyle
      = (nextLoop (mkOptimizer b2 m2 s2) 1).1.selectedStyle
    ∧ (nextLoop (mkOptimizer b1 m1 s1) 1).1.selectedRandomness
      = (nextLoop (mkOptimizer b2 m2 s2) 1).1.selectedRandomness
    ∧ (nextLoop (mkOptimizer b1 m1 s1) 1).1.selectedMutationIntensity
      = (nextLoop (mkOptimizer b2 m2 s2) 1).1.selectedMutationIntensity
    ∧ (nextLoop (mkOptimizer b1 m1 s1) 1).1.input.keywords
      = (nextLoop (mkOptimizer b2 m2 s2) 1).1.input.keywords
    ∧ (nextLoop (mkOptimizer b1 m1 s1) 1).1.input.description
      = (nextLoop (mkOptimizer b2 m2 s2) 1).1.input.description := by
  subst hb
  subst hm
  subst hs
  exact ⟨rfl, rfl, rfl, rfl, rfl⟩

/-- Witness for C8 at the concrete fixture request, the default model
state and the fixed seed 1234. -/
theorem c8_witness :
    (nextLoop (mkOptimizer seededBaseInput createDefaultOptimizerModelState 1234) 1).1.selectedStyle
      = (nextLoop (mkOptimizer seededBaseInput createDefaultOptimizerModelState 1234) 1).1.selectedStyle
    ∧ (nextLoop (mkOptimizer seededBaseInput createDefaultOptimizerModelState 1234) 1).1.selectedRandomness
      = (nextLoop (mkOptimizer seededBaseInput createDefaultOptimizerModelState 1234) 1).1.selectedRandomness
    ∧ (nextLoop (mkOptimizer seededBaseInput createDefaultOptimizerModelState 1234) 1).1.selectedMutationIntensity
      = (nextLoop (mkOptimizer seededBaseInput createDefaultOptimizerModelState 1234) 1).1.selectedMutationIntensity
    ∧ (nextLoop (mkOptimizer seededBaseInput createDefaultOptimizerModelState 1234) 1).1.input.keywords
      = (nextLoop (mkOptimizer seededBaseInput createDefaultOptimizerModelState 1234) 1).1.input.keywords
    ∧ (nextLoop (mkOptimizer seededBaseInput createDefaultOptimizerModelState 1234) 1).1.input.description
      = (nextLoop (mkOptimizer seededBaseInput createDefaultOptimizerModelState 1234) 1).1.input.description :=
  c8_seed_determinism seededBaseInput seededBaseInput
    createDefaultOptimizerModelState createDefaultOptimizerModelState
    1234 1234 rfl rfl rfl

/-! ## Association-map lemmas -/

theorem mapHasKey_iff {β : Type} (m : List (String × β)) (k : String) :
    mapHasKey m k = true ↔ ∃ e ∈ m, e.1 = k := by
  simp [mapHasKey, List.any_eq_true]

theorem mapSet_hasKey_iff {β : Type} (m : List (String × β)) (k : String)
    (v : β) (d : String) :
    mapHasKey (mapSet m k v) d = true ↔ (d = k ∨ mapHasKey m d = true) := by
  rw [mapSet]
  by_cases h : m.any (fun e => e.1 = k) = true
  · rw [if_pos h]
    rw [mapHasKey_iff, mapHasKey_iff]
    constructor
    · rintro ⟨e2, he2, hk2⟩
      rcases List.mem_map.mp he2 with ⟨e, he, heq⟩
      by_cases hek : e.1 = k
      · rw [if_pos hek] at heq
        subst heq
        exact Or.inl hk2.symm
      · rw [if_neg hek] at heq
        subst heq
        exact Or.inr ⟨e, he, hk2⟩
    · rintro (rfl | ⟨e, he, hk2⟩)
      · rcases List.any_eq_true.mp h with ⟨e, he, hek⟩
        refine ⟨(d, v), List.mem_map.mpr ⟨e, he, ?_⟩, rfl⟩
        rw [if_pos (of_decide_eq_true hek)]
      · by_cases hek : e.1 = k
        · refine ⟨(k, v), List.mem_map.mpr ⟨e, he, ?_⟩, ?_⟩
          · rw [if_pos hek]
          · rw [← hk2, hek]
        · refine ⟨e, List.mem_map.mpr ⟨e, he, ?_⟩, hk2⟩
          rw [if_neg hek]
  · rw [if_neg h]
    rw [mapHasKey_iff, mapHasKey_iff]
    constructor
    · rintro ⟨e, he, hk⟩
      rcases List.mem_append.mp he with hm | hsing
      · exact Or.inr ⟨e, hm, hk⟩
      · rcases List.mem_singleton.mp hsing with rfl
        exact Or.inl hk.symm
    · rintro (rfl | ⟨e, he, hk⟩)
      · exact ⟨(d, v), List.mem_append.mpr (Or.inr (List.mem_singleton.mpr rfl)), rfl⟩
      · exact ⟨e, List.mem_append.mpr (Or.inl he), hk⟩

theorem mapSet_hasKey_ne {β : Type} (m : List (String × β)) (k : String)
    (v : β) (d : String) (hne : d ≠ k) :
    mapHasKey (mapSet m k v) d = mapHasKey m d := by
  by_cases h : mapHasKey m d = true
  · rw [h]
    rw [mapSet_hasKey_iff]
    exact Or.inr h
  · rw [Bool.eq_false_iff.mpr h]
    rw [Bool.eq_false_iff]
    intro habs
    rcases (mapSet_hasKey_iff m k v d).mp habs with hdk | hm
    · exact hne hdk
    · exact h hm

theorem mapSet_find_self {β : Type} (m : List (String × β)) (k : String)
    (v : β) : mapFind? (mapSet m k v) k = some v := by
  rw [mapSet]
  by_cases h : m.any (fun e => e.1 = k) = true
  · rw [if_pos h]
    induction m with
    | nil => simp at h
    | cons e m ih =>
      by_cases hek : e.1 = k
      · simp only [List.map_cons, mapFind?, List.find?, if_pos hek]
        simp
      · have h2 : m.any (fun e => e.1 = k) = true := by
          rcases List.any_eq_true.mp h with ⟨e2, he2, hk2⟩
          rcases List.mem_cons.mp he2 with rfl | hm
          · exact absurd (of_decide_eq_true hk2) hek
          · exact List.any_eq_true.mpr ⟨e2, hm, hk2⟩
        have ih2 := ih h2
        simp only [List.map_cons, mapFind?, List.find?, if_neg hek] at ih2 ⊢
        rw [decide_eq_false hek]
        exact ih2
  · rw [if_neg h]
    induction m with
    | nil => simp [mapFind?, List.find?]
    | cons e m ih =>
      have hek : ¬ e.1 = k := by
        intro habs
        exact h (List.any_eq_true.mpr ⟨e, List.mem_cons_self e m, decide_eq_true habs⟩)
      have h2 : ¬ m.any (fun e => e.1 = k) = true := by
        intro habs
        rcases List.any_eq_true.mp habs with ⟨e2, he2, hk2⟩
        exact h (List.any_eq_true.mpr ⟨e2, List.mem_cons_of_mem e he2, hk2⟩)
      have ih2 := ih h2
      simp only [List.cons_append, mapFind?, List.find?] at ih2 ⊢
      rw [decide_eq_false hek]
      exact ih2

theorem mapSet_noop_map {β : Type} (m : List (String × β)) (k : String)
    (v : β) (h : ¬ m.any (fun e => e.1 = k) = true) :
    m.map (fun e => if e.1 = k then (k, v) else e) = m := by
  induction m with
  | nil => rfl
  | cons e m ih =>
    have hek : ¬ e.1 = k := fun habs =>
      h (List.any_eq_true.mpr ⟨e, List.mem_cons_self e m, decide_eq_true habs⟩)
    have h2 : ¬ m.any (fun e => e.1 = k) = true := by
      intro habs
      rcases List.any_eq_true.mp habs with ⟨e2, he2, hk2⟩
      exact h (List.any_eq_true.mpr ⟨e2, List.mem_cons_of_mem e he2, hk2⟩)
    rw [List.map_cons, if_neg hek, ih h2]

theorem mapSet_find_ne {β : Type} (m : List (String × β)) (k : String)
    (v : β) (d : String) (hne : d ≠ k) :
    mapFind? (mapSet m k v) d = mapFind? m d := by
  rw [mapSet]
  by_cases h : m.any (fun e => e.1 = k) = true
  · rw [if_pos h]
    induction m with
    | nil => simp
    | cons e m ih =>
      by_cases hek : e.1 = k
      · have hed : ¬ e.1 = d := by
          rw [hek]
          exact fun habs => hne habs.symm
        simp only [List.map_cons, mapFind?, List.find?, if_pos hek]
        rw [decide_eq_false (fun habs => hne habs.symm), decide_eq_false hed]
        by_cases h2 : m.any (fun e => e.1 = k) = true
        · have := ih h2
          simp only [mapFind?] at this
          exact this
        · rw [mapSet_noop_map m k v h2]
      · simp only [List.map_cons, mapFind?, List.find?, if_neg hek]
        by_cases hed : e.1 = d
        · rw [decide_eq_true hed]
        · rw [decide_eq_false hed]
          by_cases h2 : m.any (fun e => e.1 = k) = true
          · have := ih h2
            simp only [mapFind?] at this
            exact this
          · rw [mapSet_noop_map m k v h2]
  · rw [if_neg h]
    rw [mapFind?, mapFind?, List.find?_append]
    have hlast : ([(k, v)].find? (fun e => e.1 = d)) = none := by
      simp only [List.find?]
      rw [decide_eq_false (fun habs => hne habs.symm)]
    cases hfind : m.find? (fun e => e.1 = d) with
    | none => simp [hfind, hlast]
    | some e => simp [hfind]

/-! ## Fill-loop and chunk-phase lemmas -/

theorem fillMissing_hasKey_ne (m : List (String × GoDaddyAvailability))
    (x d : String) (hne : d ≠ x) :
    mapHasKey (fillMissing m x) d = mapHasKey m d := by
  rw [fillMissing]
  by_cases h : mapHasKey m x = true
  · rw [if_pos h]
  · rw [if_neg h]
    exact mapSet_hasKey_ne m x _ d hne

theorem fillMissing_find_ne (m : List (String × GoDaddyAvailability))
    (x d : String) (hne : d ≠ x) :
    mapFind? (fillMissing m x) d = mapFind? m d := by
  rw [fillMissing]
  by_cases h : mapHasKey m x = true
  · rw [if_pos h]
  · rw [if_neg h]
    exact mapSet_find_ne m x _ d hne

theorem fillFold_preserves (ds : List String)
    (m : List (String × GoDaddyAvailability)) (d : String)
    (h : mapHasKey m d = true) :
    mapFind? (ds.foldl fillMissing m) d = mapFind? m d
    ∧ mapHasKey (ds.foldl fillMissing m) d = true := by
  induction ds generalizing m with
  | nil => exact ⟨rfl, h⟩
  | cons x ds ih =>
    by_cases hxd : d = x
    · subst hxd
      have hstep : fillMissing m d = m := by
        rw [fillMissing, if_pos h]
      rw [List.foldl_cons, hstep]
      exact ih m h
    · have hkey : mapHasKey (fillMissing m x) d = true := by
        rw [fillMissing_hasKey_ne m x d hxd]
        exact h
      have hfind : mapFind? (fillMissing m x) d = mapFind? m d :=
        fillMissing_find_ne m x d hxd
      rw [List.foldl_cons]
      rcases ih (fillMissing m x) hkey with ⟨h1, h2⟩
      exact ⟨h1.trans hfind, h2⟩

theorem fillFold_ensures (ds : List String)
    (m : List (String × GoDaddyAvailability)) (d : String) (hd : d ∈ ds) :
    mapHasKey (ds.foldl fillMissing m) d = true
    ∧ (mapHasKey m d = false →
        mapFind? (ds.foldl fillMissing m) d = some (missingAvailability d)) := by
  induction ds generalizing m with
  | nil => cases hd
  | cons x ds ih =>
    by_cases hxd : d = x
    · subst hxd
      by_cases hm : mapHasKey m d = true
      · have hstep : fillMissing m d = m := by
          rw [fillMissing, if_pos hm]
        rw [List.foldl_cons, hstep]
        refine ⟨(fillFold_preserves ds m d hm).2, ?_⟩
        intro habs
        rw [habs] at hm
        cases hm
      · have hm2 : mapHasKey m d = false := Bool.eq_false_iff.mpr hm
        have hstep : fillMissing m d = mapSet m d (missingAvailability d) := by
          rw [fillMissing, if_neg hm]
        have hkey : mapHasKey (mapSet m d (missingAvailability d)) d = true :=
          (mapSet_hasKey_iff m d _ d).mpr (Or.inl rfl)
        have hfind := mapSet_find_self m d (missingAvailability d)
        rw [List.foldl_cons, hstep]
        rcases fillFold_preserves ds _ d hkey with ⟨h1, h2⟩
        exact ⟨h2, fun _ => h1.trans hfind⟩
    · rw [List.foldl_cons]
      have hmem : d ∈ ds := by
        rcases List.mem_cons.mp hd with rfl | hds
        · exact absurd rfl hxd
        · exact hds
      rcases ih (fillMissing m x) hmem with ⟨h1, h2⟩
      refine ⟨h1, ?_⟩
      intro hfalse
      apply h2
      rw [fillMissing_hasKey_ne m x d hxd]
      exact hfalse

theorem foldSet_keys {γ β : Type} (rows : List γ) (keyOf : γ → String)
    (valOf : γ → β) (m : List (String × β)) (d : String)
    (h : mapHasKey (rows.foldl (fun m r => mapSet m (keyOf r) (valOf r)) m) d
      = true) :
    mapHasKey m d = true ∨ d ∈ rows.map keyOf := by
  induction rows generalizing m with
  | nil => exact Or.inl h
  | cons r rows ih =>
    rw [List.foldl_cons] at h
    rcases ih (mapSet m (keyOf r) (valOf r)) h with hbase | hmem
    · rcases (mapSet_hasKey_iff m (keyOf r) (valOf r) d).mp hbase with hdk | hm
      · exact Or.inr (List.mem_map.mpr ⟨r, List.mem_cons_self r rows, hdk.symm⟩)
      · exact Or.inl hm
    · right
      rw [List.map_cons]
      exact List.mem_cons_of_mem _ hmem

theorem applyChunkPayload_keys (m : List (String × GoDaddyAvailability))
    (payload : GoDaddyBulkResponse) (d : String)
    (h : mapHasKey (applyChunkPayload m payload) d = true) :
    mapHasKey m d = true ∨ d ∈ chunkKeys payload := by
  rw [applyChunkPayload] at h
  rcases foldSet_keys payload.errors (fun ei => jsToLower ei.domain) _ _ d h
    with h1 | hmem
  · rcases foldSet_keys payload.domains (fun di => jsToLower di.domain) _ _ d h1
      with h2 | hmem2
    · exact Or.inl h2
    · right
      rw [chunkKeys]
      exact List.mem_append.mpr (Or.inl hmem2)
  · right
    rw [chunkKeys]
    exact List.mem_append.mpr (Or.inr hmem)

theorem chunksFold_keys (chunks : List (List String))
    (respond : List String → GoDaddyBulkResponse)
    (m : List (String × GoDaddyAvailability)) (d : String)
    (h : mapHasKey
      (chunks.foldl (fun m chunk => applyChunkPayload m (respond chunk)) m) d
      = true) :
    mapHasKey m d = true
    ∨ d ∈ (chunks.map (fun chunk => chunkKeys (respond chunk))).flatten := by
  induction chunks generalizing m with
  | nil => exact Or.inl h
  | cons c chunks ih =>
    rw [List.foldl_cons] at h
    rcases ih (applyChunkPayload m (respond c)) h with hbase | hmem
    · rcases applyChunkPayload_keys m (respond c) d hbase with h2 | hk
      · exact Or.inl h2
      · right
        rw [List.map_cons, List.flatten_cons]
        exact List.mem_append.mpr (Or.inl hk)
    · right
      rw [List.map_cons, List.flatten_cons]
      exact List.mem_append.mpr (Or.inr hmem)

theorem mem_dedupKeepFirstAux (l : List String) (d : String) :
    ∀ seen, d ∈ dedupKeepFirstAux seen l ↔ (d ∈ l ∧ d ∉ seen) := by
  induction l with
  | nil => intro seen; simp [dedupKeepFirstAux]
  | cons x xs ih =>
    intro seen
    rw [dedupKeepFirstAux]
    by_cases hx : x ∈ seen
    · rw [if_pos hx, ih seen]
      constructor
      · rintro ⟨hmem, hns⟩
        exact ⟨List.mem_cons_of_mem x hmem, hns⟩
      · rintro ⟨hmem, hns⟩
        rcases List.mem_cons.mp hmem with rfl | hxs
        · exact absurd hx hns
        · exact ⟨hxs, hns⟩
    · rw [if_neg hx]
      constructor
      · intro hmem
        rcases List.mem_cons.mp hmem with rfl | htail
        · exact ⟨List.mem_cons_self d xs, hx⟩
        · rcases (ih (x :: seen)).mp htail with ⟨hxs, hns⟩
          refine ⟨List.mem_cons_of_mem x hxs, ?_⟩
          intro habs
          exact hns (List.mem_cons_of_mem x habs)
      · rintro ⟨hmem, hns⟩
        rcases List.mem_cons.mp hmem with rfl | hxs
        · exact List.mem_cons_self d _
        · by_cases hdx : d = x
          · subst hdx
            exact List.mem_cons_self d _
          · apply List.mem_cons_of_mem
            apply (ih (x :: seen)).mpr
            refine ⟨hxs, ?_⟩
            intro habs
            rcases List.mem_cons.mp habs with h1 | h2
            · exact hdx h1
            · exact hns h2

theorem mem_dedupKeepFirst (l : List String) (d : String) :
    d ∈ dedupKeepFirst l ↔ d ∈ l := by
  rw [dedupKeepFirst, mem_dedupKeepFirstAux]
  simp

/-! ## Claim C10: bulk availability totality -/

/-- C10: for every input list and every provider behaviour, the map
returned by checkAvailabilityBulk contains an entry for every distinct
trimmed, lowercased, non-empty input domain; any queried domain for which
no provider response row arrived is filled in as available = false,
definitive = false with the human-readable fallback reason, so no queried
domain is silently absent from the result. -/
theorem c10_bulk_total (domains : List String)
    (respond : List String → GoDaddyBulkResponse) (d : String)
    (hd : d ∈ normalizedDomains domains) :
    mapHasKey (checkAvailabilityBulk domains respond) d = true
    ∧ (d ∉ providerKeys domains respond →
        mapFind? (checkAvailabilityBulk domains respond) d
          = some (missingAvailability d))
    ∧ (∀ raw ∈ domains, jsToLower (jsTrim raw) ≠ "" →
        jsToLower (jsTrim raw) ∈ normalizedDomains domains) := by
  refine ⟨?_, ?_, ?_⟩
  · exact (fillFold_ensures (normalizedDomains domains) _ d hd).1
  · intro hpk
    have hafter : mapHasKey
        ((chunkDomains (normalizedDomains domains) CHUNK_SIZE).foldl
          (fun m chunk => applyChunkPayload m (respond chunk)) []) d = false := by
      rw [Bool.eq_false_iff]
      intro habs
      rcases chunksFold_keys _ respond [] d habs with hempty | hmem
      · simp [mapHasKey] at hempty
      · exact hpk hmem
    exact (fillFold_ensures (normalizedDomains domains) _ d hd).2 hafter
  · intro raw hraw hne
    rw [normalizedDomains, mem_dedupKeepFirst]
    apply List.mem_filter.mpr
    refine ⟨List.mem_map.mpr ⟨raw, hraw, rfl⟩, ?_⟩
    exact decide_eq_true hne

/-- Witness for C10: three raw inputs that normalise to two distinct
domains, against a provider that returns nothing, so the fallback record
is observable. -/
theorem c10_witness :
    ("nova.com" ∈ normalizedDomains [" Nova.COM ", "nova.com", "pix.com"])
    ∧ (mapHasKey
        (checkAvailabilityBulk [" Nova.COM ", "nova.com", "pix.com"]
          (fun _ => { domains := [], errors := [] })) "nova.com" = true
      ∧ ("nova.com" ∉ providerKeys [" Nova.COM ", "nova.com", "pix.com"]
            (fun _ => { domains := [], errors := [] }) →
          mapFind?
            (checkAvailabilityBulk [" Nova.COM ", "nova.com", "pix.com"]
              (fun _ => { domains := [], errors := [] })) "nova.com"
            = some (missingAvailability "nova.com"))
      ∧ (∀ raw ∈ ([" Nova.COM ", "nova.com", "pix.com"] : List String),
          jsToLower (jsTrim raw) ≠ "" →
          jsToLower (jsTrim raw)
            ∈ normalizedDomains [" Nova.COM ", "nova.com", "pix.com"])) :=
  ⟨by decide,
    c10_bulk_total [" Nova.COM ", "nova.com", "pix.com"]
      (fun _ => { domains := [], errors := [] }) "nova.com" (by decide)⟩

/-! ## Progress range lemmas -/

theorem clamp01_bounds (f : ℚ) : 0 ≤ clamp f 0 1 ∧ clamp f 0 1 ≤ 1 :=
  ⟨lo_le_clamp (by norm_num), clamp_le_hi⟩

theorem calculateLoopProgress_range (T loop : ℕ) (f : ℚ) (h1 : 1 ≤ loop)
    (h2 : loop ≤ T) :
    5 ≤ calculateLoopProgress T loop f ∧ calculateLoopProgress T loop f ≤ 95 := by
  have hT : T ≠ 0 := by omega
  rw [calculateLoopProgress, if_neg hT]
  have hTpos : (0 : ℚ) < (T : ℚ) := by
    exact_mod_cast Nat.pos_of_ne_zero hT
  have hc := clamp01_bounds f
  have hnum0 : (0 : ℚ) ≤ ((loop - 1 : ℕ) : ℚ) + clamp f 0 1 := by
    have : (0 : ℚ) ≤ ((loop - 1 : ℕ) : ℚ) := Nat.cast_nonneg _
    linarith
  have hnum1 : ((loop - 1 : ℕ) : ℚ) + clamp f 0 1 ≤ (T : ℚ) := by
    have hl : ((loop - 1 : ℕ) : ℚ) ≤ (T : ℚ) - 1 := by
      have : loop - 1 ≤ T - 1 := by omega
      have hcast : ((loop - 1 : ℕ) : ℚ) ≤ ((T - 1 : ℕ) : ℚ) := by
        exact_mod_cast this
      have hT1 : ((T - 1 : ℕ) : ℚ) = (T : ℚ) - 1 := by
        have : (1 : ℕ) ≤ T := by omega
        push_cast [Nat.cast_sub this]
        ring
      rw [hT1] at hcast
      exact hcast
    linarith [hc.2]
  have hn0 : (0 : ℚ) ≤ (((loop - 1 : ℕ) : ℚ) + clamp f 0 1) / (T : ℚ) :=
    div_nonneg hnum0 (le_of_lt hTpos)
  have hn1 : (((loop - 1 : ℕ) : ℚ) + clamp f 0 1) / (T : ℚ) ≤ 1 :=
    (div_le_one hTpos).mpr hnum1
  constructor
  · exact le_jsRound (by push_cast; nlinarith)
  · exact jsRound_le (by push_cast; nlinarith)

theorem emitted_memA {T loop : ℕ} {f1 f2 f3 : ℚ} {mid : Prop}
    [Decidable mid] {v : ℤ}
    (hv : v ∈ (calculateLoopProgress T loop f1 ::
      (if mid then ([] : List ℤ) else [calculateLoopProgress T loop f2]))
      ++ [calculateLoopProgress T loop f3]) :
    ∃ f, v = calculateLoopProgress T loop f := by
  rcases List.mem_append.mp hv with hl | h3
  · rcases List.mem_cons.mp hl with rfl | hm
    · exact ⟨f1, rfl⟩
    · by_cases hmid : mid
      · rw [if_pos hmid] at hm
        cases hm
      · rw [if_neg hmid] at hm
        rcases List.mem_singleton.mp hm with rfl
        exact ⟨f2, rfl⟩
  · rcases List.mem_singleton.mp h3 with rfl
    exact ⟨f3, rfl⟩

theorem runLoopProgress_shape (T loop m : ℕ) (batches : List BatchOutcome) :
    ∀ k c bc st v, v ∈ runLoopProgress T loop m k c bc st batches →
      ∃ f, v = calculateLoopProgress T loop f := by
  induction batches with
  | nil =>
    intro k c bc st v hv
    cases hv
  | cons b rest ih =>
    intro k c bc st v hv
    rw [runLoopProgress] at hv
    by_cases hquota : m ≤ k
    · rw [if_pos hquota] at hv
      cases hv
    rw [if_neg hquota] at hv
    by_cases hcons : LOOP_CONSIDERED_LIMIT ≤ c
    · rw [if_pos hcons] at hv
      cases hv
    rw [if_neg hcons] at hv
    by_cases hbatch : LOOP_MAX_BATCH_ATTEMPTS ≤ bc
    · rw [if_pos hbatch] at hv
      cases hv
    rw [if_neg hbatch] at hv
    dsimp only at hv
    by_cases hlim : LOOP_CONSIDERED_LIMIT ≤ c + b.fresh
    · rw [if_pos hlim] at hv
      exact emitted_memA hv
    rw [if_neg hlim] at hv
    by_cases hstall : LOOP_MAX_STALLED_BATCHES ≤
        (if b.fresh = 0 then st + 1
          else if (if b.fresh = 0 then 0 else b.qualified ⊓ (m - k)) = 0
            then st + 1 else 0)
    · rw [if_pos hstall] at hv
      exact emitted_memA hv
    · rw [if_neg hstall] at hv
      rcases List.mem_append.mp hv with hemit | hrec
      · exact emitted_memA hemit
      · exact ih _ _ _ _ v hrec

theorem jobInflight_mem (T m : ℕ) (loops : List (List BatchOutcome)) :
    ∀ v ∈ jobInflightProgress T m loops,
      v = 5 ∨ ∃ loop f, 1 ≤ loop ∧ loop ≤ T ∧ v = calculateLoopProgress T loop f := by
  intro v hv
  rw [jobInflightProgress] at hv
  rcases List.mem_cons.mp hv with rfl | hrest
  · exact Or.inl rfl
  · right
    rcases List.mem_flatten.mp hrest with ⟨sub, hsub, hvsub⟩
    rcases List.mem_map.mp hsub with ⟨i, hi, heq⟩
    have hiT : i < T := List.mem_range.mp hi
    subst heq
    rcases List.mem_append.mp hvsub with hloop | hend
    · rcases runLoopProgress_shape T (i + 1) m (loops.getD i []) 0 0 0 0 v hloop
        with ⟨f, rfl⟩
      exact ⟨i + 1, f, by omega, by omega, rfl⟩
    · rcases List.mem_singleton.mp hend with rfl
      exact ⟨i + 1, 1, by omega, by omega, rfl⟩

/-! ## Claim C2: progress values -/

/-- C2 counterexample: with one loop of quota 1 whose batches each produce
five fresh candidates and none qualifying, the written progress values are
5, 10, 13, 16, 10, 13, 16, 10, 13, 16, 95, 100, and the drop from 16 back
to 10 when a new batch begins shows the sequence is NOT monotonically
non-decreasing. -/
theorem c2_counterexample :
    runSearchJobProgress 1 1
        [[⟨5, 0⟩, ⟨5, 0⟩, ⟨5, 0⟩]]
      = [5, 10, 13, 16, 10, 13, 16, 10, 13, 16, 95, 100]
    ∧ ¬ List.Chain' (fun a b => a ≤ b)
        (runSearchJobProgress 1 1 [[⟨5, 0⟩, ⟨5, 0⟩, ⟨5, 0⟩]]) := by
  have htrace : runSearchJobProgress 1 1 [[⟨5, 0⟩, ⟨5, 0⟩, ⟨5, 0⟩]]
      = [5, 10, 13, 16, 10, 13, 16, 10, 13, 16, 95, 100] := by
    with_unfolding_all decide
  refine ⟨htrace, ?_⟩
  rw [htrace, List.chain'_iff_pairwise]
  decide

/-- C2 amended: every progress value written by runSearchJob is an integer
in [0,100] computed by calculateLoopProgress from the
(completedLoops + fraction) / totalLoops formula remapped into [5,95];
every value before the final completion update lies in [5,95] and the run
ends with 100; but the sequence as a whole is not monotonically
non-decreasing (see the counterexample: the pre-scrape fraction of a new
batch is below the post-batch fraction of the previous one). -/
theorem c2_progress_band (totalLoops maxNames : ℕ)
    (loops : List (List BatchOutcome)) :
    (∀ v ∈ jobInflightProgress totalLoops maxNames loops, 5 ≤ v ∧ v ≤ 95)
    ∧ (∀ v ∈ runSearchJobProgress totalLoops maxNames loops, 0 ≤ v ∧ v ≤ 100)
    ∧ (runSearchJobProgress totalLoops maxNames loops).getLast? = some 100 := by
  have hband : ∀ v ∈ jobInflightProgress totalLoops maxNames loops,
      5 ≤ v ∧ v ≤ 95 := by
    intro v hv
    rcases jobInflight_mem totalLoops maxNames loops v hv with rfl | ⟨loop, f, h1, h2, rfl⟩
    · exact ⟨le_rfl, by norm_num⟩
    · exact calculateLoopProgress_range totalLoops loop f h1 h2
  refine ⟨hband, ?_, ?_⟩
  · intro v hv
    rw [runSearchJobProgress] at hv
    rcases List.mem_append.mp hv with hin | hlast
    · rcases hband v hin with ⟨h5, h95⟩
      exact ⟨by linarith, by linarith⟩
    · rcases List.mem_singleton.mp hlast with rfl
      exact ⟨by norm_num, le_rfl⟩
  · rw [runSearchJobProgress]
    rw [List.getLast?_concat]
